import Mathlib

/-!
# Shallow embedding of `src/virtual-list/virtual-list.vue`

A formalisation of the windowing and dynamic-height-estimation engine of
the virtual-list component.  Heights, offsets and scroll positions are
modelled as rationals; list indices as naturals, or as integers where the
source performs unclamped arithmetic (`estimatedIndex - preloadCount` and
friends may go negative before `Math.max`).

* The component's reactive refs are collected in `VLState`; the props in
  `Params`.  `copyList` carries opaque payloads, so only its length and
  the assigned `index` fields matter; it is modelled by `listLen`, and a
  `copyList` element is identified with its index.
* JavaScript truthiness of a number (`x || y`) is modelled by `jsOr`,
  with `0` standing for both the number `0` and `undefined` (array holes
  are read as `0` via `List.getD`, the position cache via `List.lookup`).
* Timers and the asynchronous batched geometry queries carry no state of
  their own: each measurement callback is modelled as a function taking
  the query result — a list of `(dataset.index, rect.height)` pairs — as
  an explicit argument.  Log/emit calls have no state effect and are
  dropped.
-/

inductive PosMode where
  | absolute
  | cumulative
deriving DecidableEq, Repr

/-- The component props (`defineProps`).  `continuousHeight`,
`sampleCount` and `measureDelay` only influence scheduling, which has no
modelled state, so they are omitted. -/
structure Params where
  virtualListLength : ℕ
  itemHeight : ℚ
  preloadCount : ℕ
  dynamicHeight : Bool
  positionMode : PosMode
deriving DecidableEq, Repr

/-- One element of `virtualList.value`, as produced by
`calculateVirtualList`: payload spread is dropped (opaque), keeping
`index`, `virtualIndex`, `translateY` and `itemHeight`. -/
structure VItem where
  index : ℕ
  virtualIndex : ℕ
  translateY : ℚ
  itemHeight : ℚ
deriving DecidableEq, Repr

/-- The mutable refs of the component. -/
structure VLState where
  listLen : ℕ
  virtualList : List VItem
  itemHeights : List ℚ
  averageHeight : ℚ
  measuredIndices : List ℕ
  currentIndex : ℤ
  positionCache : List (ℕ × ℚ)
  accumulatedHeights : List ℚ
  totalHeight : ℚ
deriving DecidableEq, Repr

/-- JavaScript `x || y` on numbers: `0` (and a missing entry, which
`List.getD` reads as `0`) falls through to `y`. -/
def jsOr (x y : ℚ) : ℚ := if x = 0 then y else x

/-- Loop of `updateAccumulatedHeights`: running prefix sums of
`itemHeights.value[i] || averageHeight.value`, starting from `sum`. -/
def accumFrom (avg : ℚ) : ℚ → List ℚ → List ℚ
  | _, [] => []
  | sum, h :: t => (sum + jsOr h avg) :: accumFrom avg (sum + jsOr h avg) t

/-- Final value of `sum` in the `updateAccumulatedHeights` loop
(assigned to `totalHeight.value`). -/
def sumWith (avg : ℚ) (hs : List ℚ) : ℚ :=
  hs.foldl (fun sum h => sum + jsOr h avg) 0

/-- `updateAccumulatedHeights` (source lines 229-240). -/
def updateAccumulatedHeights (s : VLState) : VLState :=
  { s with
    accumulatedHeights := accumFrom s.averageHeight 0 s.itemHeights
    totalHeight := sumWith s.averageHeight s.itemHeights }

/-- The `while (low <= high)` binary-search loop of
`getIndexByScrollTop`.  `(low + high) / 2` is integer division with a
positive divisor, which agrees with `Math.floor((low + high) / 2)`. -/
def bsGo (acc : List ℚ) (t : ℚ) (low high : ℤ) : ℤ :=
  if hlh : low ≤ high then
    if acc.getD ((low + high) / 2).toNat 0 < t then
      bsGo acc t ((low + high) / 2 + 1) high
    else if t < acc.getD ((low + high) / 2).toNat 0 then
      bsGo acc t low ((low + high) / 2 - 1)
    else (low + high) / 2
  else max 0 low
termination_by (high + 1 - low).toNat
decreasing_by
  · omega
  · omega

/-- `getIndexByScrollTop` (source lines 167-188).  Division by an
`averageHeight` of `0` is not modelled (it is `Infinity` in JavaScript);
all statements below assume a positive average. -/
def getIndexByScrollTop (acc : List ℚ) (avg : ℚ) (scrollTop : ℚ) : ℤ :=
  if acc.length = 0 then ⌊scrollTop / avg⌋
  else bsGo acc scrollTop 0 ((acc.length : ℤ) - 1)

/-- `measuredIndices.value.add index` (a JS `Set`). -/
def insertSet (i : ℕ) (l : List ℕ) : List ℕ := if i ∈ l then l else i :: l

/-- `delete positionCache.value[k]`. -/
def removeKey (k : ℕ) (cache : List (ℕ × ℚ)) : List (ℕ × ℚ) :=
  cache.filter (fun p => p.1 != k)

/-- The `forEach` of `updateItemPositionsAbsolute` (source lines
439-456): items are visited in `virtualList` order, the cache mutations
of earlier items being visible to later ones. -/
def absGo (acc : List ℚ) (cache : List (ℕ × ℚ)) :
    List VItem → List VItem × List (ℕ × ℚ)
  | [] => ([], cache)
  | it :: rest =>
    if it.index = 0 then
      let r := absGo acc cache rest
      ({ it with translateY := 0 } :: r.1, r.2)
    else
      match cache.lookup it.index with
      | some v =>
        let r := absGo acc cache rest
        ({ it with translateY := v } :: r.1, r.2)
      | none =>
        let pos := acc.getD (it.index - 1) 0
        let r := absGo acc ((it.index, pos) :: cache) rest
        ({ it with translateY := pos } :: r.1, r.2)

/-- `updateItemPositionsAbsolute` (source lines 439-456). -/
def updateItemPositionsAbsolute (s : VLState) : VLState :=
  { s with
    virtualList := (absGo s.accumulatedHeights s.positionCache s.virtualList).1
    positionCache := (absGo s.accumulatedHeights s.positionCache s.virtualList).2 }

/-- Insertion step of the model of
`[...virtualList.value].sort((a, b) => a.index - b.index)`. -/
def insertByIndex (it : VItem) : List VItem → List VItem
  | [] => [it]
  | x :: xs => if it.index ≤ x.index then it :: x :: xs else x :: insertByIndex it xs

/-- Model of the ascending sort by `index` used by
`updateItemPositionsCumulative`; on the distinct indices of a real
window any correct sort produces the same list. -/
def sortByIndex : List VItem → List VItem
  | [] => []
  | x :: xs => insertByIndex x (sortByIndex xs)

/-- The `forEach` of `updateItemPositionsCumulative` (source lines
459-491).  `done` is the already-visited (and mutated) part of
`sortedList`, `rest` the part still to visit; the source mutates the
item objects in place, so the `sortedList.find` for the predecessor sees
updated `translateY` values on `done` and original ones on `rest`. -/
def cumulGo (hts : List ℚ) (avg : ℚ) (acc : List ℚ) :
    List (ℕ × ℚ) → List VItem → List VItem → List VItem × List (ℕ × ℚ)
  | cache, done, [] => (done, cache)
  | cache, done, it :: rest =>
    if it.index = 0 then
      cumulGo hts avg acc cache (done ++ [{ it with translateY := 0 }]) rest
    else
      match cache.lookup it.index with
      | some v => cumulGo hts avg acc cache (done ++ [{ it with translateY := v }]) rest
      | none =>
        let ty :=
          match (done ++ it :: rest).find? (fun j => j.index == it.index - 1) with
          | some p => p.translateY + jsOr (hts.getD (it.index - 1) 0) avg
          | none => acc.getD (it.index - 1) 0
        cumulGo hts avg acc ((it.index, ty) :: cache)
          (done ++ [{ it with translateY := ty }]) rest

/-- `updateItemPositionsCumulative` (source lines 459-491).  The source
mutates the shared item objects through the sorted copy; the mutated
`virtualList` is recovered by looking each original item up (by its
`index`) among the processed items. -/
def updateItemPositionsCumulative (s : VLState) : VLState :=
  { s with
    virtualList := s.virtualList.map (fun it =>
      match (cumulGo s.itemHeights s.averageHeight s.accumulatedHeights
          s.positionCache [] (sortByIndex s.virtualList)).1.find?
          (fun u => u.index == it.index) with
      | some u => u
      | none => it)
    positionCache := (cumulGo s.itemHeights s.averageHeight s.accumulatedHeights
      s.positionCache [] (sortByIndex s.virtualList)).2 }

/-- `updateItemPositions` (source lines 428-436). -/
def updateItemPositions (P : Params) (s : VLState) : VLState :=
  match P.positionMode with
  | PosMode.absolute => updateItemPositionsAbsolute s
  | PosMode.cumulative => updateItemPositionsCumulative s

/-- `calculateVirtualList` (source lines 387-425).  `copyList` elements
are identified with their indices, so the clamped
`copyList.value.slice(startIndex, endIndex)` is the index range
`[si, ei)`.  The trailing `scheduleHeightMeasurement` call only touches
timers and is dropped. -/
def calculateVirtualList (P : Params) (s : VLState) (a b : ℤ) : VLState :=
  updateItemPositions P
    { s with
      virtualList :=
        (List.range' (max 0 a).toNat
            (min s.listLen (max 0 b).toNat - (max 0 a).toNat)).map (fun i =>
          { index := i
            virtualIndex := i - (max 0 a).toNat
            translateY :=
              match s.virtualList.find? (fun old => old.index == i) with
              | some e => e.translateY
              | none => 0
            itemHeight := jsOr (s.itemHeights.getD i 0) s.averageHeight }) }

/-- The clamped estimated index of `updateVisibleItems` (source lines
145-151). -/
def estimatedIndex (P : Params) (s : VLState) (scrollTop : ℚ) : ℤ :=
  max 0 (min (getIndexByScrollTop s.accumulatedHeights s.averageHeight scrollTop)
      ((s.listLen : ℤ) - P.virtualListLength))

/-- `updateVisibleItems` (source lines 141-164). -/
def updateVisibleItems (P : Params) (s : VLState) (scrollTop : ℚ) : VLState :=
  if s.listLen = 0 then s
  else
    if ((P.preloadCount / 3 : ℕ) : ℤ) <
        |estimatedIndex P s scrollTop - s.currentIndex| then
      calculateVirtualList P { s with currentIndex := estimatedIndex P s scrollTop }
        (max 0 (estimatedIndex P s scrollTop - P.preloadCount))
        (min (s.listLen : ℤ)
          (estimatedIndex P s scrollTop + P.virtualListLength + P.preloadCount))
    else s

/-- The `watch(() => props.list)` handler (source lines 522-561), as a
function of the new list's length (payloads are opaque; the handler
reassigns `index`/`id` to every element, which the index model absorbs).
The scheduled initial measurement is asynchronous and modelled
separately by `measureInitialSample`. -/
def replaceList (P : Params) (s : VLState) (newLen : ℕ) : VLState :=
  if newLen = 0 then
    { s with
      virtualList := []
      listLen := 0
      totalHeight := 0
      measuredIndices := []
      positionCache := []
      accumulatedHeights := []
      averageHeight := P.itemHeight }
  else
    calculateVirtualList P
      (updateAccumulatedHeights
        { s with
          listLen := newLen
          measuredIndices := []
          positionCache := []
          averageHeight := P.itemHeight
          itemHeights := List.replicate newLen P.itemHeight })
      0 ((min newLen (P.virtualListLength + P.preloadCount) : ℕ) : ℤ)

/-- `refreshHeight` (source lines 572-577); the re-triggered
measurement is asynchronous and modelled separately. -/
def refreshHeight (s : VLState) : VLState :=
  { s with measuredIndices := [], positionCache := [] }

/-- One `rects.forEach` step of `measureInitialSample` (source lines
267-289): a rect with a falsy height is skipped, otherwise the height is
clamped to `≥ 1`, recorded, and the item's cache entry cleared.  The
accumulator also carries `measuredCount` and the local `totalHeight`
sum. -/
def initRectStep (acc : VLState × ℕ × ℚ) (r : ℕ × ℚ) : VLState × ℕ × ℚ :=
  if r.2 = 0 then acc
  else
    ({ acc.1 with
        measuredIndices := insertSet r.1 acc.1.measuredIndices
        itemHeights := acc.1.itemHeights.set r.1 (max 1 r.2)
        virtualList := acc.1.virtualList.map (fun it =>
          if it.index == r.1 then { it with itemHeight := max 1 r.2 } else it)
        positionCache := removeKey r.1 acc.1.positionCache },
      acc.2.1 + 1, acc.2.2 + max 1 r.2)

/-- One step of the `for (let i = 0; ...)` rewrite loop of
`measureInitialSample` (source lines 298-309): an unmeasured index gets
the new average height and loses its cache entry. -/
def rewriteStep (newAvg : ℚ) (st : VLState) (i : ℕ) : VLState :=
  if st.measuredIndices.contains i then st
  else
    { st with
      itemHeights := st.itemHeights.set i newAvg
      positionCache := removeKey i st.positionCache
      virtualList := st.virtualList.map (fun it =>
        if it.index == i then { it with itemHeight := newAvg } else it) }

/-- `measureInitialSample` (source lines 243-319), as a function of the
geometry-query result `rects`. -/
def measureInitialSample (P : Params) (s : VLState) (rects : List (ℕ × ℚ)) : VLState :=
  if ¬ P.dynamicHeight ∨ s.virtualList.length = 0 then s
  else if rects.length = 0 then s
  else
    if 0 < (rects.foldl initRectStep (s, 0, 0)).2.1 then
      updateItemPositions P (updateAccumulatedHeights
        (if P.itemHeight * (1 / 10) <
            |(rects.foldl initRectStep (s, 0, 0)).2.2 /
                ((rects.foldl initRectStep (s, 0, 0)).2.1 : ℚ) -
              P.itemHeight| then
          (List.range (rects.foldl initRectStep (s, 0, 0)).1.itemHeights.length).foldl
            (rewriteStep
              ((rects.foldl initRectStep (s, 0, 0)).2.2 /
                ((rects.foldl initRectStep (s, 0, 0)).2.1 : ℚ)))
            { (rects.foldl initRectStep (s, 0, 0)).1 with
              averageHeight :=
                (rects.foldl initRectStep (s, 0, 0)).2.2 /
                  ((rects.foldl initRectStep (s, 0, 0)).2.1 : ℚ) }
        else
          { (rects.foldl initRectStep (s, 0, 0)).1 with
            averageHeight :=
              (rects.foldl initRectStep (s, 0, 0)).2.2 /
                ((rects.foldl initRectStep (s, 0, 0)).2.1 : ℚ) }))
    else (rects.foldl initRectStep (s, 0, 0)).1

/-- One `rects.forEach` step of `measureItemHeights` (source lines
342-367): the height is written (and the cache entry for that index
cleared) only when the old entry is falsy or the change exceeds 1 unit;
the `Bool` component is the `heightsChanged` flag. -/
def contRectStep (acc : VLState × ℕ × ℚ × Bool) (r : ℕ × ℚ) : VLState × ℕ × ℚ × Bool :=
  if r.2 = 0 then acc
  else
    if acc.1.itemHeights.getD r.1 0 = 0 ∨
        1 < |acc.1.itemHeights.getD r.1 0 - max 1 r.2| then
      ({ acc.1 with
          measuredIndices := insertSet r.1 acc.1.measuredIndices
          itemHeights := acc.1.itemHeights.set r.1 (max 1 r.2)
          virtualList := acc.1.virtualList.map (fun it =>
            if it.index == r.1 then { it with itemHeight := max 1 r.2 } else it)
          positionCache := removeKey r.1 acc.1.positionCache },
        acc.2.1 + 1, acc.2.2.1 + max 1 r.2, true)
    else
      ({ acc.1 with measuredIndices := insertSet r.1 acc.1.measuredIndices },
        acc.2.1 + 1, acc.2.2.1 + max 1 r.2, acc.2.2.2)

/-- `measureItemHeights` (source lines 322-384), as a function of the
geometry-query result.  `isNaN(newAverage)` cannot arise over `ℚ`, so
the guard reduces to `newAverage > 0`. -/
def measureItemHeights (P : Params) (s : VLState) (rects : List (ℕ × ℚ)) : VLState :=
  if s.virtualList.length = 0 ∨ ¬ P.dynamicHeight then s
  else if rects.length = 0 then s
  else
    if (rects.foldl contRectStep (s, 0, 0, false)).2.2.2 = true ∧
        0 < (rects.foldl contRectStep (s, 0, 0, false)).2.1 then
      updateItemPositions P (updateAccumulatedHeights
        (if 0 < (rects.foldl contRectStep (s, 0, 0, false)).2.2.1 /
            ((rects.foldl contRectStep (s, 0, 0, false)).2.1 : ℚ) then
          { (rects.foldl contRectStep (s, 0, 0, false)).1 with
            averageHeight :=
              (rects.foldl contRectStep (s, 0, 0, false)).1.averageHeight * (7 / 10) +
                (rects.foldl contRectStep (s, 0, 0, false)).2.2.1 /
                  ((rects.foldl contRectStep (s, 0, 0, false)).2.1 : ℚ) * (3 / 10) }
        else (rects.foldl contRectStep (s, 0, 0, false)).1))
    else (rects.foldl contRectStep (s, 0, 0, false)).1

/-- `updateElementHeight` (source lines 580-662), as a function of the
geometry-query result.  The `console` reports and the
`uni.$emit` notification have no modelled state; the `measuredHeight`
annotation written onto the opaque `copyList` payload is outside the
index model and dropped. -/
def updateElementHeight (P : Params) (s : VLState) (index : ℤ)
    (rects : List (ℕ × ℚ)) : VLState :=
  if index < 0 ∨ (s.listLen : ℤ) ≤ index then s
  else if (s.virtualList.find? (fun it => (it.index : ℤ) == index)).isNone then s
  else if rects.length = 0 then s
  else
    match rects.find? (fun r => (r.1 : ℤ) == index) with
    | none => s
    | some r =>
      if r.2 = 0 then s
      else
        if |jsOr (s.itemHeights.getD index.toNat 0) s.averageHeight - max 1 r.2| ≤ 1
        then s
        else
          updateItemPositions P (updateAccumulatedHeights
            { s with
              itemHeights := s.itemHeights.set index.toNat (max 1 r.2)
              virtualList := s.virtualList.map (fun it =>
                if it.index == index.toNat then { it with itemHeight := max 1 r.2 }
                else it)
              positionCache := s.positionCache.filter (fun p =>
                decide (p.1 < index.toNat) || decide (s.listLen ≤ p.1)) })

/-- The indices of the materialized window, in display order. -/
def windowIndices (s : VLState) : List ℕ := s.virtualList.map (fun it => it.index)

/-- Number of entries of `acc` strictly below `t`; on a strictly
increasing list this is the position of the first entry `≥ t` (or the
length when there is none). -/
def rankLt (acc : List ℚ) (t : ℚ) : ℕ := acc.countP (fun v => decide (v < t))

/-- Arithmetic mean of the clamped heights of the valid (truthy-height)
rects of a measurement batch: the value `totalHeight / measuredCount`
computed by the measurement callbacks. -/
def batchMean (rects : List (ℕ × ℚ)) : ℚ :=
  ((rects.filter (fun r => r.2 != 0)).map (fun r => max 1 r.2)).sum /
    ((rects.filter (fun r => r.2 != 0)).length : ℚ)

/-- The offset both positioning strategies are shown to assign on a
fresh (cache-free) contiguous window: `0` for index `0`, otherwise the
cumulative height of everything strictly before the index. -/
def specUpd (acc : List ℚ) (it : VItem) : VItem :=
  { it with translateY := if it.index = 0 then 0 else acc.getD (it.index - 1) 0 }

/-! ## Sample parameters and states used by witnesses and counterexamples -/

/-- The default props: `virtualListLength = 20`, `itemHeight = 100`,
`preloadCount = 10`, `dynamicHeight = true`, `positionMode = cumulative`. -/
def P0 : Params := ⟨20, 100, 10, true, PosMode.cumulative⟩

/-- The state before any list is assigned. -/
def emptyState : VLState := ⟨0, [], [], 100, [], 0, [], [], 0⟩

/-- The state used by the C9 witness: three items, only index 0
materialized. -/
def s9 : VLState :=
  ⟨3, [⟨0, 0, 0, 100⟩], [100, 100, 100], 100, [], 0, [], [100, 200, 300], 300⟩

/-- The parameters and state of the C7 witness: window length 2, preload
1, average height 1, ten source items.  Scroll offset 5 estimates index
5; the gate `0 < |5 - 0|` passes and the window becomes `[4, 8)`. -/
def sW7 : VLState := ⟨10, [], [], 1, [], 0, [], [], 0⟩

/-- The state of the C2 counterexample and witness: two items, index 0
unmeasured with height 200 (e.g. after a `refreshHeight` cleared the
measured set), nominal height 100. -/
def s2c : VLState :=
  ⟨2, [⟨0, 0, 0, 200⟩, ⟨1, 1, 200, 100⟩], [200, 100], 100, [], 0, [],
    [200, 300], 300⟩

/-- The state of the C3 counterexample and witness: two items both of
height 100, index 1's offset `100` cached (computed from index 0's old
height). -/
def s3c : VLState :=
  ⟨2, [⟨0, 0, 0, 100⟩, ⟨1, 1, 100, 100⟩], [100, 100], 100, [], 0, [(1, 100)],
    [100, 200], 200⟩

/-- The state of the C10 witness: a cache-free window `[1, 3)` over
three items of heights 10, 20, 30, with the cumulative index freshly
rebuilt. -/
def sw10 : VLState :=
  ⟨3, [⟨1, 0, 5, 100⟩, ⟨2, 1, 7, 100⟩], [10, 20, 30], 100, [], 0, [],
    accumFrom 100 0 [10, 20, 30], 60⟩

/-! ## Record-field preservation lemmas -/

@[simp] theorem updateAccumulatedHeights_itemHeights (s : VLState) :
    (updateAccumulatedHeights s).itemHeights = s.itemHeights := rfl

@[simp] theorem updateAccumulatedHeights_averageHeight (s : VLState) :
    (updateAccumulatedHeights s).averageHeight = s.averageHeight := rfl

@[simp] theorem updateAccumulatedHeights_measuredIndices (s : VLState) :
    (updateAccumulatedHeights s).measuredIndices = s.measuredIndices := rfl

@[simp] theorem updateAccumulatedHeights_listLen (s : VLState) :
    (updateAccumulatedHeights s).listLen = s.listLen := rfl

@[simp] theorem updateAccumulatedHeights_virtualList (s : VLState) :
    (updateAccumulatedHeights s).virtualList = s.virtualList := rfl

@[simp] theorem updateAccumulatedHeights_positionCache (s : VLState) :
    (updateAccumulatedHeights s).positionCache = s.positionCache := rfl

@[simp] theorem updateAccumulatedHeights_currentIndex (s : VLState) :
    (updateAccumulatedHeights s).currentIndex = s.currentIndex := rfl

@[simp] theorem updateAccumulatedHeights_accumulatedHeights (s : VLState) :
    (updateAccumulatedHeights s).accumulatedHeights =
      accumFrom s.averageHeight 0 s.itemHeights := rfl

@[simp] theorem updateAccumulatedHeights_totalHeight (s : VLState) :
    (updateAccumulatedHeights s).totalHeight = sumWith s.averageHeight s.itemHeights := rfl

@[simp] theorem updateItemPositionsAbsolute_itemHeights (s : VLState) :
    (updateItemPositionsAbsolute s).itemHeights = s.itemHeights := rfl

@[simp] theorem updateItemPositionsAbsolute_averageHeight (s : VLState) :
    (updateItemPositionsAbsolute s).averageHeight = s.averageHeight := rfl

@[simp] theorem updateItemPositionsAbsolute_measuredIndices (s : VLState) :
    (updateItemPositionsAbsolute s).measuredIndices = s.measuredIndices := rfl

@[simp] theorem updateItemPositionsAbsolute_listLen (s : VLState) :
    (updateItemPositionsAbsolute s).listLen = s.listLen := rfl

@[simp] theorem updateItemPositionsAbsolute_currentIndex (s : VLState) :
    (updateItemPositionsAbsolute s).currentIndex = s.currentIndex := rfl

@[simp] theorem updateItemPositionsAbsolute_accumulatedHeights (s : VLState) :
    (updateItemPositionsAbsolute s).accumulatedHeights = s.accumulatedHeights := rfl

@[simp] theorem updateItemPositionsAbsolute_totalHeight (s : VLState) :
    (updateItemPositionsAbsolute s).totalHeight = s.totalHeight := rfl

@[simp] theorem updateItemPositionsCumulative_itemHeights (s : VLState) :
    (updateItemPositionsCumulative s).itemHeights = s.itemHeights := rfl

@[simp] theorem updateItemPositionsCumulative_averageHeight (s : VLState) :
    (updateItemPositionsCumulative s).averageHeight = s.averageHeight := rfl

@[simp] theorem updateItemPositionsCumulative_measuredIndices (s : VLState) :
    (updateItemPositionsCumulative s).measuredIndices = s.measuredIndices := rfl

@[simp] theorem updateItemPositionsCumulative_listLen (s : VLState) :
    (updateItemPositionsCumulative s).listLen = s.listLen := rfl

@[simp] theorem updateItemPositionsCumulative_currentIndex (s : VLState) :
    (updateItemPositionsCumulative s).currentIndex = s.currentIndex := rfl

@[simp] theorem updateItemPositionsCumulative_accumulatedHeights (s : VLState) :
    (updateItemPositionsCumulative s).accumulatedHeights = s.accumulatedHeights := rfl

@[simp] theorem updateItemPositionsCumulative_totalHeight (s : VLState) :
    (updateItemPositionsCumulative s).totalHeight = s.totalHeight := rfl

theorem updateItemPositions_itemHeights (P : Params) (s : VLState) :
    (updateItemPositions P s).itemHeights = s.itemHeights := by
  cases hm : P.positionMode <;> simp [updateItemPositions, hm]

theorem updateItemPositions_averageHeight (P : Params) (s : VLState) :
    (updateItemPositions P s).averageHeight = s.averageHeight := by
  cases hm : P.positionMode <;> simp [updateItemPositions, hm]

theorem updateItemPositions_measuredIndices (P : Params) (s : VLState) :
    (updateItemPositions P s).measuredIndices = s.measuredIndices := by
  cases hm : P.positionMode <;> simp [updateItemPositions, hm]

theorem updateItemPositions_listLen (P : Params) (s : VLState) :
    (updateItemPositions P s).listLen = s.listLen := by
  cases hm : P.positionMode <;> simp [updateItemPositions, hm]

theorem updateItemPositions_currentIndex (P : Params) (s : VLState) :
    (updateItemPositions P s).currentIndex = s.currentIndex := by
  cases hm : P.positionMode <;> simp [updateItemPositions, hm]

theorem calculateVirtualList_averageHeight (P : Params) (s : VLState) (a b : ℤ) :
    (calculateVirtualList P s a b).averageHeight = s.averageHeight := by
  simp [calculateVirtualList, updateItemPositions_averageHeight]

theorem calculateVirtualList_listLen (P : Params) (s : VLState) (a b : ℤ) :
    (calculateVirtualList P s a b).listLen = s.listLen := by
  simp [calculateVirtualList, updateItemPositions_listLen]

theorem calculateVirtualList_itemHeights (P : Params) (s : VLState) (a b : ℤ) :
    (calculateVirtualList P s a b).itemHeights = s.itemHeights := by
  simp [calculateVirtualList, updateItemPositions_itemHeights]

theorem calculateVirtualList_currentIndex (P : Params) (s : VLState) (a b : ℤ) :
    (calculateVirtualList P s a b).currentIndex = s.currentIndex := by
  simp [calculateVirtualList, updateItemPositions_currentIndex]

theorem updateItemPositions_accumulatedHeights (P : Params) (s : VLState) :
    (updateItemPositions P s).accumulatedHeights = s.accumulatedHeights := by
  cases hm : P.positionMode <;> simp [updateItemPositions, hm]

theorem updateItemPositions_totalHeight (P : Params) (s : VLState) :
    (updateItemPositions P s).totalHeight = s.totalHeight := by
  cases hm : P.positionMode <;> simp [updateItemPositions, hm]

theorem calculateVirtualList_accumulatedHeights (P : Params) (s : VLState) (a b : ℤ) :
    (calculateVirtualList P s a b).accumulatedHeights = s.accumulatedHeights := by
  simp [calculateVirtualList, updateItemPositions_accumulatedHeights]

theorem calculateVirtualList_measuredIndices (P : Params) (s : VLState) (a b : ℤ) :
    (calculateVirtualList P s a b).measuredIndices = s.measuredIndices := by
  simp [calculateVirtualList, updateItemPositions_measuredIndices]

theorem calculateVirtualList_totalHeight (P : Params) (s : VLState) (a b : ℤ) :
    (calculateVirtualList P s a b).totalHeight = s.totalHeight := by
  simp [calculateVirtualList, updateItemPositions_totalHeight]

/-! ## Prefix-sum (`accumFrom`) lemmas -/

theorem accumFrom_length (avg : ℚ) : ∀ (c : ℚ) (hs : List ℚ),
    (accumFrom avg c hs).length = hs.length
  | _, [] => rfl
  | c, h :: t => by simp [accumFrom, accumFrom_length avg (c + jsOr h avg) t]

theorem jsOr_of_pos {x : ℚ} (hx : 0 < x) (y : ℚ) : jsOr x y = x := by
  simp [jsOr, ne_of_gt hx]

theorem accumFrom_getD (avg : ℚ) : ∀ (hs : List ℚ) (c : ℚ) (j : ℕ),
    j < hs.length →
    (accumFrom avg c hs).getD j 0 = c + ((hs.take (j + 1)).map (fun h => jsOr h avg)).sum
  | [], _, j, hj => absurd hj (by simp)
  | h :: t, c, 0, _ => by simp [accumFrom]
  | h :: t, c, j + 1, hj => by
    have ht : j < t.length := by simpa using hj
    simp only [accumFrom, List.getD_cons_succ, List.take_succ_cons, List.map_cons,
      List.sum_cons]
    rw [accumFrom_getD avg t (c + jsOr h avg) j ht]
    ring

theorem le_of_mem_accumFrom (avg : ℚ) : ∀ (hs : List ℚ) (c x : ℚ),
    (∀ h ∈ hs, 0 < h) → x ∈ accumFrom avg c hs → c ≤ x
  | [], _, _, _, hx => absurd hx (by simp [accumFrom])
  | h :: t, c, x, hpos, hx => by
    have hh : 0 < h := hpos h (by simp)
    rcases (by simpa [accumFrom] using hx :
        x = c + jsOr h avg ∨ x ∈ accumFrom avg (c + jsOr h avg) t) with h1 | h1
    · rw [h1, jsOr_of_pos hh]
      linarith
    · have := le_of_mem_accumFrom avg t (c + jsOr h avg) x
        (fun g hg => hpos g (by simp [hg])) h1
      rw [jsOr_of_pos hh] at this
      linarith

theorem accumFrom_pairwise_le (avg : ℚ) : ∀ (hs : List ℚ) (c : ℚ),
    (∀ h ∈ hs, 0 < h) → List.Pairwise (· ≤ ·) (accumFrom avg c hs)
  | [], _, _ => by simp [accumFrom]
  | h :: t, c, hpos => by
    refine List.pairwise_cons.mpr ⟨fun x hx => ?_, ?_⟩
    · exact le_of_mem_accumFrom avg t (c + jsOr h avg) x
        (fun g hg => hpos g (by simp [hg])) hx
    · exact accumFrom_pairwise_le avg t (c + jsOr h avg)
        (fun g hg => hpos g (by simp [hg]))

theorem accumFrom_getLastD (avg : ℚ) : ∀ (hs : List ℚ) (c : ℚ),
    (accumFrom avg c hs).getLastD c = hs.foldl (fun sum h => sum + jsOr h avg) c
  | [], c => rfl
  | h :: t, c => by
    simp only [accumFrom, List.getLastD_cons]
    exact accumFrom_getLastD avg t (c + jsOr h avg)

theorem sumWith_eq_getLastD (avg : ℚ) (hs : List ℚ) :
    sumWith avg hs = (accumFrom avg 0 hs).getLastD 0 := by
  rw [sumWith, accumFrom_getLastD]

/-- **C5.** After every `updateAccumulatedHeights` over a height table of
positive heights, the cumulative array has the same length as the height
table, is non-decreasing, its `i`-th entry is the sum of the first `i+1`
heights, and `totalHeight` is its last entry (`0` for an empty table). -/
theorem c5_cumulative_rebuild (s : VLState) (hpos : ∀ h ∈ s.itemHeights, 0 < h) :
    (updateAccumulatedHeights s).accumulatedHeights.length = s.itemHeights.length ∧
    List.Pairwise (· ≤ ·) (updateAccumulatedHeights s).accumulatedHeights ∧
    (∀ i, i < s.itemHeights.length →
      (updateAccumulatedHeights s).accumulatedHeights.getD i 0 =
        (s.itemHeights.take (i + 1)).sum) ∧
    (updateAccumulatedHeights s).totalHeight =
      (updateAccumulatedHeights s).accumulatedHeights.getLastD 0 ∧
    (s.itemHeights = [] → (updateAccumulatedHeights s).totalHeight = 0) := by
  refine ⟨accumFrom_length _ _ _, accumFrom_pairwise_le _ _ _ hpos, fun i hi => ?_,
    sumWith_eq_getLastD _ _, fun he => by simp [he, sumWith]⟩
  rw [updateAccumulatedHeights_accumulatedHeights, accumFrom_getD _ _ _ _ hi, zero_add]
  have hmap : (s.itemHeights.take (i + 1)).map (fun h => jsOr h s.averageHeight) =
      (s.itemHeights.take (i + 1)).map id :=
    List.map_congr_left fun x hx => jsOr_of_pos (hpos x (List.mem_of_mem_take hx)) _
  rw [hmap, List.map_id]

/-- Witness for `c5_cumulative_rebuild` at a concrete state. -/
theorem c5_cumulative_rebuild_witness :
    (∀ h ∈ [(10 : ℚ), 20, 30], 0 < h) ∧
    (updateAccumulatedHeights ⟨3, [], [10, 20, 30], 100, [], 0, [], [], 0⟩).accumulatedHeights.length = 3 := by
  have := c5_cumulative_rebuild ⟨3, [], [10, 20, 30], 100, [], 0, [], [], 0⟩ (by decide)
  exact ⟨by decide, this.1⟩

/-! ## C8 — list replacement -/

/-- **C8.** Replacing the source list with an empty list clears the
materialized window, `totalHeight`, `measuredIndices`, `positionCache`
and `accumulatedHeights`, and resets `averageHeight` to the configured
nominal height; replacing it with any non-empty list resets
`averageHeight` to the nominal height (no measurement result is part of
`replaceList`; measurements arrive only through the separately modelled
callbacks). -/
theorem c8_replacement_resets (P : Params) (s : VLState) :
    (replaceList P s 0 =
      { s with
        virtualList := []
        listLen := 0
        totalHeight := 0
        measuredIndices := []
        positionCache := []
        accumulatedHeights := []
        averageHeight := P.itemHeight }) ∧
    (∀ N : ℕ, N ≠ 0 → (replaceList P s N).averageHeight = P.itemHeight) := by
  constructor
  · rfl
  · intro N hN
    rw [replaceList, if_neg hN, calculateVirtualList_averageHeight,
      updateAccumulatedHeights_averageHeight]

/-- Witness for `c8_replacement_resets`: concrete non-empty replacement. -/
theorem c8_replacement_resets_witness :
    (3 : ℕ) ≠ 0 ∧ (replaceList P0 emptyState 3).averageHeight = P0.itemHeight :=
  ⟨by decide, (c8_replacement_resets P0 emptyState).2 3 (by decide)⟩

/-! ## C9 — targeted height update guards -/

/-- **C9.** `updateElementHeight` with an index outside `[0, N)` is a
no-op, and with an in-range index that is not materialized in the
current window it is also a no-op: no field of the state changes. -/
theorem c9_update_guards (P : Params) (s : VLState) (index : ℤ)
    (rects : List (ℕ × ℚ)) :
    (index < 0 ∨ (s.listLen : ℤ) ≤ index → updateElementHeight P s index rects = s) ∧
    (0 ≤ index → index < (s.listLen : ℤ) →
      (s.virtualList.find? (fun it => (it.index : ℤ) == index)).isNone = true →
      updateElementHeight P s index rects = s) := by
  constructor
  · intro h
    simp [updateElementHeight, h]
  · intro h0 hN hfind
    have hout : ¬ (index < 0 ∨ (s.listLen : ℤ) ≤ index) := by omega
    simp [updateElementHeight, hout, hfind]


/-- Witness for `c9_update_guards`: index 5 is out of range for a
3-element list, index 2 is in range but not materialized; both calls
leave the state untouched. -/
theorem c9_update_guards_witness :
    updateElementHeight P0 s9 5 [(5, 300)] = s9 ∧
    updateElementHeight P0 s9 2 [(2, 300)] = s9 :=
  ⟨(c9_update_guards P0 s9 5 [(5, 300)]).1 (by decide),
   (c9_update_guards P0 s9 2 [(2, 300)]).2 (by decide) (by decide) (by decide)⟩

/-! ## Binary-search characterization (`getIndexByScrollTop`) -/

theorem rankLt_le_length (acc : List ℚ) (t : ℚ) : rankLt acc t ≤ acc.length :=
  List.countP_le_length _

theorem rankLt_cons (x : ℚ) (xs : List ℚ) (t : ℚ) :
    rankLt (x :: xs) t = rankLt xs t + if x < t then 1 else 0 := by
  simp [rankLt, List.countP_cons]

theorem rankLt_eq_zero_of_le (x : ℚ) (xs : List ℚ) (t : ℚ)
    (hs : List.Pairwise (· < ·) (x :: xs)) (hx : t ≤ x) :
    rankLt (x :: xs) t = 0 := by
  rw [rankLt_cons, if_neg (not_lt.mpr hx)]
  have h0 : rankLt xs t = 0 := by
    rw [rankLt, List.countP_eq_zero]
    intro a ha
    have hxa : x < a := (List.pairwise_cons.mp hs).1 a ha
    simp only [decide_eq_true_eq]
    intro hc
    linarith
  omega

theorem getD_lt_of_lt_rankLt : ∀ (acc : List ℚ) (t : ℚ),
    List.Pairwise (· < ·) acc → ∀ i : ℕ, i < rankLt acc t → acc.getD i 0 < t
  | [], t, _, i, hi => by simp [rankLt] at hi
  | x :: xs, t, hs, 0, hi => by
    by_cases hx : x < t
    · simpa using hx
    · rw [rankLt_eq_zero_of_le x xs t hs (not_lt.mp hx)] at hi
      omega
  | x :: xs, t, hs, i + 1, hi => by
    by_cases hx : x < t
    · have hi' : i < rankLt xs t := by
        rw [rankLt_cons, if_pos hx] at hi
        omega
      simpa using getD_lt_of_lt_rankLt xs t (List.pairwise_cons.mp hs).2 i hi'
    · rw [rankLt_eq_zero_of_le x xs t hs (not_lt.mp hx)] at hi
      omega

theorem le_getD_of_rankLt_le : ∀ (acc : List ℚ) (t : ℚ),
    List.Pairwise (· < ·) acc →
    ∀ i : ℕ, rankLt acc t ≤ i → i < acc.length → t ≤ acc.getD i 0
  | [], t, _, i, _, hi => by simp at hi
  | x :: xs, t, hs, 0, hr, _ => by
    by_cases hx : x < t
    · rw [rankLt_cons, if_pos hx] at hr
      omega
    · simpa using not_lt.mp hx
  | x :: xs, t, hs, i + 1, hr, hlen => by
    by_cases hx : x < t
    · have h1 : rankLt xs t ≤ i := by
        rw [rankLt_cons, if_pos hx] at hr
        omega
      have := le_getD_of_rankLt_le xs t (List.pairwise_cons.mp hs).2 i h1
        (by simpa using hlen)
      simpa using this
    · have hi' : i < xs.length := by simpa using hlen
      have hmem : xs.getD i 0 ∈ xs := by
        rw [List.getD_eq_getElem _ _ hi']
        exact List.getElem_mem hi'
      have hxa : x < xs.getD i 0 := (List.pairwise_cons.mp hs).1 _ hmem
      have hxt : t ≤ x := not_lt.mp hx
      simp only [List.getD_cons_succ]
      linarith

/-- The binary-search loop, on a strictly increasing array and with the
loop invariant `low ≤ rankLt ≤ high + 1`, returns `rankLt acc t`: the
position of the first entry `≥ t` (the array length when there is
none). -/
theorem bsGo_eq_rankLt (acc : List ℚ) (t : ℚ) (hs : List.Pairwise (· < ·) acc) :
    ∀ (n : ℕ) (low high : ℤ), (high + 1 - low).toNat ≤ n → 0 ≤ low →
      high < (acc.length : ℤ) → low ≤ (rankLt acc t : ℤ) →
      (rankLt acc t : ℤ) ≤ high + 1 →
      bsGo acc t low high = (rankLt acc t : ℤ) := by
  intro n
  induction n with
  | zero =>
    intro low high hfuel h0 hlen hlo hhi
    have hgt : ¬ low ≤ high := by omega
    rw [bsGo, dif_neg hgt]
    omega
  | succ n ih =>
    intro low high hfuel h0 hlen hlo hhi
    by_cases hlh : low ≤ high
    · rw [bsGo, dif_pos hlh]
      have hmid1 : low ≤ (low + high) / 2 := by omega
      have hmid2 : (low + high) / 2 ≤ high := by omega
      have hmidlen : ((low + high) / 2).toNat < acc.length := by omega
      by_cases hv1 : acc.getD ((low + high) / 2).toNat 0 < t
      · rw [if_pos hv1]
        have hrank : (low + high) / 2 + 1 ≤ (rankLt acc t : ℤ) := by
          by_contra hcon
          push_neg at hcon
          have := le_getD_of_rankLt_le acc t hs ((low + high) / 2).toNat
            (by omega) hmidlen
          linarith
        exact ih ((low + high) / 2 + 1) high (by omega) (by omega) hlen hrank hhi
      · rw [if_neg hv1]
        by_cases hv2 : t < acc.getD ((low + high) / 2).toNat 0
        · rw [if_pos hv2]
          have hrank : (rankLt acc t : ℤ) ≤ (low + high) / 2 - 1 + 1 := by
            by_contra hcon
            push_neg at hcon
            have := getD_lt_of_lt_rankLt acc t hs ((low + high) / 2).toNat (by omega)
            linarith
          exact ih low ((low + high) / 2 - 1) (by omega) h0 (by omega) hlo hrank
        · rw [if_neg hv2]
          have hub : (rankLt acc t : ℤ) ≤ (low + high) / 2 := by
            by_contra hcon
            push_neg at hcon
            have := getD_lt_of_lt_rankLt acc t hs ((low + high) / 2).toNat (by omega)
            linarith
          have hlb : (low + high) / 2 ≤ (rankLt acc t : ℤ) := by
            by_contra hcon
            push_neg at hcon
            have h1 : t ≤ acc.getD (rankLt acc t) 0 :=
              le_getD_of_rankLt_le acc t hs (rankLt acc t) le_rfl (by omega)
            have h2 : acc.getD (rankLt acc t) 0 < acc.getD ((low + high) / 2).toNat 0 := by
              have hij : rankLt acc t < ((low + high) / 2).toNat := by omega
              have := (List.pairwise_iff_get.mp hs)
                ⟨rankLt acc t, by omega⟩ ⟨((low + high) / 2).toNat, hmidlen⟩ hij
              rwa [List.getD_eq_getElem _ _ (by omega : rankLt acc t < acc.length),
                List.getD_eq_getElem _ _ hmidlen]
            linarith
          omega
    · rw [bsGo, dif_neg hlh]
      omega

/-- **C4 (amended).** On a strictly increasing cumulative array,
`getIndexByScrollTop` returns the position of the first entry whose
cumulative height is `≥ scrollTop` (the array length when there is
none), and it falls back to `⌊scrollTop / averageHeight⌋` exactly when
the cumulative array is empty — not when no measurements exist: a
non-empty list populates `accumulatedHeights` from default heights
before any measurement. -/
theorem c4_locate_index (acc : List ℚ) (avg t : ℚ)
    (hs : List.Pairwise (· < ·) acc) :
    (acc = [] → getIndexByScrollTop acc avg t = ⌊t / avg⌋) ∧
    (acc ≠ [] →
      getIndexByScrollTop acc avg t = (rankLt acc t : ℤ) ∧
      (∀ i : ℕ, i < rankLt acc t → acc.getD i 0 < t) ∧
      (rankLt acc t < acc.length → t ≤ acc.getD (rankLt acc t) 0)) := by
  constructor
  · intro he
    rw [getIndexByScrollTop, if_pos (by simp [he])]
  · intro hne
    have hlen : acc.length ≠ 0 := by simpa using hne
    refine ⟨?_, fun i hi => getD_lt_of_lt_rankLt acc t hs i hi,
      fun hr => le_getD_of_rankLt_le acc t hs _ le_rfl hr⟩
    rw [getIndexByScrollTop, if_neg hlen]
    exact bsGo_eq_rankLt acc t hs acc.length 0 ((acc.length : ℤ) - 1)
      (by omega) (by omega) (by omega)
      (by positivity)
      (by have := rankLt_le_length acc t; omega)

/-- Witness for `c4_locate_index` on a concrete strictly increasing
array. -/
theorem c4_locate_index_witness :
    List.Pairwise (· < ·) [(100 : ℚ), 250] ∧ ([(100 : ℚ), 250] ≠ []) ∧
    getIndexByScrollTop [(100 : ℚ), 250] 100 120 = (rankLt [(100 : ℚ), 250] 120 : ℤ) :=
  ⟨by decide, by decide,
    ((c4_locate_index [(100 : ℚ), 250] 100 120 (by decide)).2 (by decide)).1⟩

/-- Counterexample to C4 as stated: after populating a one-element list
(no measurement has ever been recorded, `measuredIndices = []`), the
lookup at `scrollTop = 100` takes the binary-search branch and returns
`0`, while the claimed average-height fallback `⌊100 / 100⌋` would
return `1`; so the fallback is *not* used "exactly when no measurements
exist yet" — it is used exactly when `accumulatedHeights` is empty. -/
theorem c4_counterexample :
    (replaceList P0 emptyState 1).measuredIndices = [] ∧
    getIndexByScrollTop (replaceList P0 emptyState 1).accumulatedHeights
      (replaceList P0 emptyState 1).averageHeight 100 = 0 ∧
    ⌊(100 : ℚ) / (replaceList P0 emptyState 1).averageHeight⌋ = 1 := by
  have havg : (replaceList P0 emptyState 1).averageHeight = 100 := by
    rw [replaceList, if_neg (by decide), calculateVirtualList_averageHeight,
      updateAccumulatedHeights_averageHeight]
    rfl
  have hacc : (replaceList P0 emptyState 1).accumulatedHeights = [100] := by
    rw [replaceList, if_neg (by decide), calculateVirtualList_accumulatedHeights,
      updateAccumulatedHeights_accumulatedHeights]
    norm_num [accumFrom, jsOr, List.replicate, P0]
  have hmeas : (replaceList P0 emptyState 1).measuredIndices = [] := by
    rw [replaceList, if_neg (by decide), calculateVirtualList_measuredIndices,
      updateAccumulatedHeights_measuredIndices]
  refine ⟨hmeas, ?_, ?_⟩
  · rw [hacc, havg, getIndexByScrollTop, if_neg (by decide)]
    have hr : rankLt [(100 : ℚ)] 100 = 0 := by decide
    have hb := bsGo_eq_rankLt [(100 : ℚ)] 100 (by decide) 1 0
      (([(100 : ℚ)].length : ℤ) - 1)
      (by decide) (by decide) (by decide) (by decide) (by decide)
    rw [hr] at hb
    simpa using hb
  · rw [havg]
    norm_num

/-- **C6.** `getIndexByScrollTop` is monotone in the scroll offset for a
fixed height state: on a strictly increasing cumulative array (the
binary-search branch) and for a positive average height (the fallback
branch). -/
theorem c6_locate_index_monotone (acc : List ℚ) (avg s1 s2 : ℚ)
    (hs : List.Pairwise (· < ·) acc) (havg : 0 < avg) (h12 : s1 < s2) :
    getIndexByScrollTop acc avg s1 ≤ getIndexByScrollTop acc avg s2 := by
  by_cases hlen : acc.length = 0
  · rw [getIndexByScrollTop, if_pos hlen, getIndexByScrollTop, if_pos hlen]
    exact Int.floor_le_floor (by gcongr)
  · rw [getIndexByScrollTop, if_neg hlen, getIndexByScrollTop, if_neg hlen]
    have hr1 := rankLt_le_length acc s1
    have hr2 := rankLt_le_length acc s2
    rw [bsGo_eq_rankLt acc s1 hs acc.length 0 ((acc.length : ℤ) - 1)
        (by omega) (by omega) (by omega) (by positivity) (by omega),
      bsGo_eq_rankLt acc s2 hs acc.length 0 ((acc.length : ℤ) - 1)
        (by omega) (by omega) (by omega) (by positivity) (by omega)]
    have hmono : rankLt acc s1 ≤ rankLt acc s2 := by
      refine List.countP_mono_left fun a _ ha => ?_
      simp only [decide_eq_true_eq] at ha ⊢
      linarith
    omega

/-- Witness for `c6_locate_index_monotone` on a concrete state. -/
theorem c6_locate_index_monotone_witness :
    List.Pairwise (· < ·) [(100 : ℚ), 250] ∧ (0 : ℚ) < 100 ∧ (50 : ℚ) < 200 ∧
    getIndexByScrollTop [(100 : ℚ), 250] 100 50 ≤
      getIndexByScrollTop [(100 : ℚ), 250] 100 200 :=
  ⟨by decide, by decide, by decide,
    c6_locate_index_monotone [(100 : ℚ), 250] 100 50 200 (by decide) (by decide)
      (by decide)⟩

/-! ## Window shape (`calculateVirtualList`, `updateVisibleItems`) -/

theorem absGo_map_index (acc : List ℚ) : ∀ (items : List VItem) (cache : List (ℕ × ℚ)),
    ((absGo acc cache items).1).map (fun it => it.index) =
      items.map (fun it => it.index)
  | [], _ => rfl
  | it :: rest, cache => by
    by_cases h0 : it.index = 0
    · simp [absGo, h0, absGo_map_index acc rest cache]
    · cases hl : cache.lookup it.index with
      | some v => simp [absGo, h0, hl, absGo_map_index acc rest cache]
      | none => simp [absGo, h0, hl, absGo_map_index acc rest _]

theorem cumulGo_map_index (hts : List ℚ) (avg : ℚ) (acc : List ℚ) :
    ∀ (rest done : List VItem) (cache : List (ℕ × ℚ)),
    ((cumulGo hts avg acc cache done rest).1).map (fun it => it.index) =
      done.map (fun it => it.index) ++ rest.map (fun it => it.index)
  | [], done, cache => by simp [cumulGo]
  | it :: rest, done, cache => by
    by_cases h0 : it.index = 0
    · simp [cumulGo, h0, cumulGo_map_index hts avg acc rest _ _]
    · cases hl : cache.lookup it.index with
      | some v => simp [cumulGo, h0, hl, cumulGo_map_index hts avg acc rest _ _]
      | none => simp [cumulGo, h0, hl, cumulGo_map_index hts avg acc rest _ _]

theorem windowIndices_updateItemPositionsAbsolute (s : VLState) :
    windowIndices (updateItemPositionsAbsolute s) = windowIndices s := by
  simp [windowIndices, updateItemPositionsAbsolute, absGo_map_index]

theorem windowIndices_updateItemPositionsCumulative (s : VLState) :
    windowIndices (updateItemPositionsCumulative s) = windowIndices s := by
  simp only [windowIndices, updateItemPositionsCumulative, List.map_map]
  refine List.map_congr_left fun it hit => ?_
  simp only [Function.comp_apply]
  cases hf : (cumulGo s.itemHeights s.averageHeight s.accumulatedHeights
      s.positionCache [] (sortByIndex s.virtualList)).1.find?
      (fun u => u.index == it.index) with
  | none => rfl
  | some u =>
    have := List.find?_some hf
    simpa using this

theorem windowIndices_updateItemPositions (P : Params) (s : VLState) :
    windowIndices (updateItemPositions P s) = windowIndices s := by
  cases hm : P.positionMode <;>
    simp [updateItemPositions, hm, windowIndices_updateItemPositionsAbsolute,
      windowIndices_updateItemPositionsCumulative]

theorem windowIndices_calculateVirtualList (P : Params) (s : VLState) (a b : ℤ) :
    windowIndices (calculateVirtualList P s a b) =
      List.range' (max 0 a).toNat
        (min s.listLen (max 0 b).toNat - (max 0 a).toNat) := by
  rw [calculateVirtualList, windowIndices_updateItemPositions]
  simp [windowIndices, List.map_map, Function.comp_def]

/-- **C1 (amended).** For a non-empty source list of length `N`, every
materialized window is a contiguous in-bounds sub-range of `[0, N)` of
size at most `min N (virtualListLength + 2 * preloadCount)`; the
initial-population window is `[0, min N (virtualListLength +
preloadCount))` — one `preloadCount` short of the claimed bound — and a
scroll-driven recompute yields the clamped preloaded range around the
estimated index. -/
theorem c1_window_shape (P : Params) (sPrev : VLState) (N : ℕ) (hN : 0 < N) :
    (windowIndices (replaceList P sPrev N) =
      List.range (min N (P.virtualListLength + P.preloadCount))) ∧
    ((windowIndices (replaceList P sPrev N)).length ≤
      min N (P.virtualListLength + 2 * P.preloadCount)) ∧
    (∀ (s : VLState) (t : ℚ), s.listLen = N →
      ((P.preloadCount / 3 : ℕ) : ℤ) < |estimatedIndex P s t - s.currentIndex| →
      ∃ a k, windowIndices (updateVisibleItems P s t) = List.range' a k ∧
        a + k ≤ N ∧ k ≤ min N (P.virtualListLength + 2 * P.preloadCount)) := by
  have hinit : windowIndices (replaceList P sPrev N) =
      List.range (min N (P.virtualListLength + P.preloadCount)) := by
    rw [replaceList, if_neg hN.ne', windowIndices_calculateVirtualList,
      List.range_eq_range']
    have hlen : (updateAccumulatedHeights
        { sPrev with
          listLen := N
          measuredIndices := []
          positionCache := []
          averageHeight := P.itemHeight
          itemHeights := List.replicate N P.itemHeight }).listLen = N := rfl
    rw [hlen]
    congr 1
    omega
  refine ⟨hinit, ?_, ?_⟩
  · rw [hinit, List.length_range]
    omega
  · intro s t hlen hgate
    have hs0 : s.listLen ≠ 0 := by omega
    rw [updateVisibleItems, if_neg hs0, if_pos hgate,
      windowIndices_calculateVirtualList]
    have hcl : ({ s with currentIndex := estimatedIndex P s t } : VLState).listLen
        = s.listLen := rfl
    rw [hcl]
    have hest : 0 ≤ estimatedIndex P s t := le_max_left 0 _
    have hub : estimatedIndex P s t ≤ (s.listLen : ℤ) := by
      simp only [estimatedIndex]
      omega
    refine ⟨_, _, rfl, ?_, ?_⟩ <;> omega

/-- Counterexample to C1 as stated: with `virtualListLength = 2`,
`preloadCount = 1` and a 4-element list, the initial materialized window
has 3 items, not `min 4 (2 + 2*1) = 4`. -/
theorem c1_counterexample :
    (windowIndices (replaceList ⟨2, 100, 1, true, PosMode.cumulative⟩ emptyState 4)).length
      = 3 ∧
    min 4 ((2 : ℕ) + 2 * 1) = 4 ∧ (3 : ℕ) ≠ 4 := by
  refine ⟨?_, by decide, by decide⟩
  rw [replaceList, if_neg (by decide), windowIndices_calculateVirtualList]
  decide

/-- Witness for `c1_window_shape` at a concrete non-empty length. -/
theorem c1_window_shape_witness :
    (0 < 3) ∧ windowIndices (replaceList P0 emptyState 3) = List.range (min 3 (20 + 10)) :=
  ⟨by decide, (c1_window_shape P0 emptyState 3 (by decide)).1⟩

/-- **C7.** On a scroll-driven update over a non-empty list: the
estimated index is clamped to `[0, max 0 (N - virtualListLength)]`; when
`|estimated - currentIndex| ≤ ⌊preloadCount / 3⌋` the state (window,
`currentIndex`, all offsets) is unchanged; and when the hysteresis gate
passes, `currentIndex` becomes the estimated index and the window is
`[max 0 (estimated - preloadCount),
  min N (estimated + virtualListLength + preloadCount))`. -/
theorem c7_scroll_update (P : Params) (s : VLState) (t : ℚ) (hN : 0 < s.listLen) :
    (0 ≤ estimatedIndex P s t ∧
      estimatedIndex P s t ≤ max 0 ((s.listLen : ℤ) - P.virtualListLength)) ∧
    (|estimatedIndex P s t - s.currentIndex| ≤ ((P.preloadCount / 3 : ℕ) : ℤ) →
      updateVisibleItems P s t = s) ∧
    (((P.preloadCount / 3 : ℕ) : ℤ) < |estimatedIndex P s t - s.currentIndex| →
      (updateVisibleItems P s t).currentIndex = estimatedIndex P s t ∧
      windowIndices (updateVisibleItems P s t) =
        List.range' (max 0 (estimatedIndex P s t - P.preloadCount)).toNat
          ((min (s.listLen : ℤ)
              (estimatedIndex P s t + P.virtualListLength + P.preloadCount)).toNat -
            (max 0 (estimatedIndex P s t - P.preloadCount)).toNat)) := by
  have hs0 : s.listLen ≠ 0 := by omega
  refine ⟨?_, ?_, ?_⟩
  · simp only [estimatedIndex]
    omega
  · intro hle
    rw [updateVisibleItems, if_neg hs0, if_neg (not_lt.mpr hle)]
  · intro hgate
    constructor
    · rw [updateVisibleItems, if_neg hs0, if_pos hgate, calculateVirtualList_currentIndex]
    · rw [updateVisibleItems, if_neg hs0, if_pos hgate,
        windowIndices_calculateVirtualList]
      have hcl : ({ s with currentIndex := estimatedIndex P s t } : VLState).listLen
          = s.listLen := rfl
      rw [hcl]
      congr 1 <;> omega


/-- Witness for `c7_scroll_update`. -/
theorem c7_scroll_update_witness :
    (0 < sW7.listLen) ∧
    (((1 / 3 : ℕ) : ℤ) <
      |estimatedIndex ⟨2, 100, 1, true, PosMode.cumulative⟩ sW7 5 - sW7.currentIndex|) ∧
    (updateVisibleItems ⟨2, 100, 1, true, PosMode.cumulative⟩ sW7 5).currentIndex =
      estimatedIndex ⟨2, 100, 1, true, PosMode.cumulative⟩ sW7 5 := by
  have hest : estimatedIndex ⟨2, 100, 1, true, PosMode.cumulative⟩ sW7 5 = 5 := by
    simp only [estimatedIndex, getIndexByScrollTop, sW7]
    norm_num
  refine ⟨by decide, ?_, ?_⟩
  · rw [hest]
    decide
  · exact ((c7_scroll_update ⟨2, 100, 1, true, PosMode.cumulative⟩ sW7 5 (by decide)).2.2
      (by rw [hest]; decide)).1

/-! ## Cache-entry bookkeeping (`measureItemHeights`, C3) -/

theorem getD_set_ne (l : List ℚ) (i j : ℕ) (a : ℚ) (h : i ≠ j) :
    (l.set i a).getD j 0 = l.getD j 0 := by
  simp [List.getD_eq_getElem?_getD, List.getElem?_set_ne h]

theorem getD_set_self (l : List ℚ) (i : ℕ) (a : ℚ) (h : i < l.length) :
    (l.set i a).getD i 0 = a := by
  simp [List.getD_eq_getElem?_getD, List.getElem?_set_self, h]

theorem lookup_cons_ne (c : List (ℕ × ℚ)) (k j : ℕ) (v : ℚ) (h : j ≠ k) :
    List.lookup j ((k, v) :: c) = List.lookup j c := by
  have hb : (j == k) = false := beq_eq_false_iff_ne.mpr h
  simp [List.lookup, hb]

theorem lookup_removeKey (k j : ℕ) (h : j ≠ k) : ∀ cache : List (ℕ × ℚ),
    (removeKey k cache).lookup j = cache.lookup j
  | [] => rfl
  | (a, v) :: rest => by
    by_cases hak : a = k
    · have hja : j ≠ a := fun hc => h (hc ▸ hak)
      have hb : (a != k) = false := by simp [hak]
      rw [removeKey, List.filter_cons, hb, lookup_cons_ne rest a j v hja]
      exact lookup_removeKey k j h rest
    · have hb : (a != k) = true := by simp [hak]
      rw [removeKey, List.filter_cons, hb, if_pos rfl]
      by_cases hja : j = a
      · subst hja
        simp [List.lookup]
      · rw [lookup_cons_ne _ a j v hja, lookup_cons_ne rest a j v hja]
        exact lookup_removeKey k j h rest

theorem absGo_lookup_preserved (acc : List ℚ) :
    ∀ (items : List VItem) (cache : List (ℕ × ℚ)) (j : ℕ) (v : ℚ),
    cache.lookup j = some v → ((absGo acc cache items).2).lookup j = some v
  | [], cache, j, v, hv => hv
  | it :: rest, cache, j, v, hv => by
    by_cases h0 : it.index = 0
    · simp only [absGo, h0, if_pos]
      exact absGo_lookup_preserved acc rest cache j v hv
    · cases hl : cache.lookup it.index with
      | some w =>
        simp only [absGo, h0, if_neg, hl]
        exact absGo_lookup_preserved acc rest cache j v hv
      | none =>
        have hji : j ≠ it.index := fun hc => by
          rw [hc, hl] at hv
          exact Option.noConfusion hv
        simp only [absGo, h0, if_neg, hl]
        exact absGo_lookup_preserved acc rest _ j v
          (by rw [lookup_cons_ne cache it.index j _ hji]; exact hv)

theorem cumulGo_lookup_preserved (hts : List ℚ) (avg : ℚ) (acc : List ℚ) :
    ∀ (rest done : List VItem) (cache : List (ℕ × ℚ)) (j : ℕ) (v : ℚ),
    cache.lookup j = some v → ((cumulGo hts avg acc cache done rest).2).lookup j = some v
  | [], done, cache, j, v, hv => hv
  | it :: rest, done, cache, j, v, hv => by
    by_cases h0 : it.index = 0
    · simp only [cumulGo, h0, if_pos]
      exact cumulGo_lookup_preserved hts avg acc rest _ cache j v hv
    · cases hl : cache.lookup it.index with
      | some w =>
        simp only [cumulGo, h0, if_neg, hl]
        exact cumulGo_lookup_preserved hts avg acc rest _ cache j v hv
      | none =>
        have hji : j ≠ it.index := fun hc => by
          rw [hc, hl] at hv
          exact Option.noConfusion hv
        simp only [cumulGo, h0, if_neg, hl]
        exact cumulGo_lookup_preserved hts avg acc rest _ _ j v
          (by rw [lookup_cons_ne cache it.index j _ hji]; exact hv)

theorem updateItemPositions_lookup_preserved (P : Params) (s : VLState) (j : ℕ) (v : ℚ)
    (hv : s.positionCache.lookup j = some v) :
    (updateItemPositions P s).positionCache.lookup j = some v := by
  cases hm : P.positionMode
  · simp only [updateItemPositions, hm, updateItemPositionsAbsolute]
    exact absGo_lookup_preserved _ _ _ j v hv
  · simp only [updateItemPositions, hm, updateItemPositionsCumulative]
    exact cumulGo_lookup_preserved _ _ _ _ _ _ j v hv

/-- Unfolding of `measureItemHeights` on a single-rect batch `(i, h)`
whose height change passes the 1-unit threshold: the height is written,
`i` is marked measured, only `i`'s own cache entry is removed, the
average is blended 70/30, and the cumulative index and positions are
rebuilt. -/
theorem measureItemHeights_single (P : Params) (s : VLState) (i : ℕ) (h : ℚ)
    (hdyn : P.dynamicHeight = true) (hwin : s.virtualList.length ≠ 0) (hh : h ≠ 0)
    (hcond : s.itemHeights.getD i 0 = 0 ∨ 1 < |s.itemHeights.getD i 0 - max 1 h|) :
    measureItemHeights P s [(i, h)] =
      updateItemPositions P (updateAccumulatedHeights
        { s with
          measuredIndices := insertSet i s.measuredIndices
          itemHeights := s.itemHeights.set i (max 1 h)
          virtualList := s.virtualList.map (fun it =>
            if it.index == i then { it with itemHeight := max 1 h } else it)
          positionCache := removeKey i s.positionCache
          averageHeight :=
            s.averageHeight * (7 / 10) + (0 + max 1 h) / ((1 : ℕ) : ℚ) * (3 / 10) }) := by
  have hmax : (0 : ℚ) < max 1 h := lt_of_lt_of_le one_pos (le_max_left 1 h)
  have hguard1 : ¬ (s.virtualList.length = 0 ∨ ¬ P.dynamicHeight) := by
    simp [hwin, hdyn]
  have hfold : ([(i, h)] : List (ℕ × ℚ)).foldl contRectStep (s, 0, 0, false) =
      ({ s with
          measuredIndices := insertSet i s.measuredIndices
          itemHeights := s.itemHeights.set i (max 1 h)
          virtualList := s.virtualList.map (fun it =>
            if it.index == i then { it with itemHeight := max 1 h } else it)
          positionCache := removeKey i s.positionCache },
        1, 0 + max 1 h, true) := by
    simp only [List.foldl_cons, List.foldl_nil, contRectStep]
    rw [if_neg hh, if_pos hcond]
  have hpos2 : (0 : ℚ) < (0 + max 1 h) / ((1 : ℕ) : ℚ) := by
    rw [Nat.cast_one, div_one, zero_add]
    exact hmax
  simp only [measureItemHeights]
  rw [if_neg hguard1, if_neg (by simp : ¬ ([(i, h)] : List (ℕ × ℚ)).length = 0), hfold,
    if_pos (⟨rfl, Nat.one_pos⟩ : _ ∧ _), if_pos hpos2]

/-- **C3 (amended).** After a `measureItemHeights` batch records `h` for
index `i` with `|HeightTable[i] - clamp(h)| > 1`, a subsequent height
lookup for `i` returns `max 1 h`; but the batch invalidates only `i`'s
own PositionCache entry — an existing cached offset for any other index
`j ≠ i` (in particular any downstream `j > i` computed from the old
height) survives the batch unchanged. -/
theorem c3_batch_invalidation (P : Params) (s : VLState) (i : ℕ) (h : ℚ) (j : ℕ) (v : ℚ)
    (hdyn : P.dynamicHeight = true) (hwin : s.virtualList.length ≠ 0)
    (hh : h ≠ 0) (hi : i < s.itemHeights.length)
    (hdelta : 1 < |s.itemHeights.getD i 0 - max 1 h|)
    (hj : j ≠ i) (hcache : s.positionCache.lookup j = some v) :
    (measureItemHeights P s [(i, h)]).itemHeights.getD i 0 = max 1 h ∧
    jsOr ((measureItemHeights P s [(i, h)]).itemHeights.getD i 0)
      (measureItemHeights P s [(i, h)]).averageHeight = max 1 h ∧
    (measureItemHeights P s [(i, h)]).positionCache.lookup j = some v := by
  have hmax : (0 : ℚ) < max 1 h := lt_of_lt_of_le one_pos (le_max_left 1 h)
  rw [measureItemHeights_single P s i h hdyn hwin hh (Or.inr hdelta)]
  have hheights : (updateItemPositions P (updateAccumulatedHeights
      { s with
        measuredIndices := insertSet i s.measuredIndices
        itemHeights := s.itemHeights.set i (max 1 h)
        virtualList := s.virtualList.map (fun it =>
          if it.index == i then { it with itemHeight := max 1 h } else it)
        positionCache := removeKey i s.positionCache
        averageHeight :=
          s.averageHeight * (7 / 10) + (0 + max 1 h) / ((1 : ℕ) : ℚ) * (3 / 10) })).itemHeights
      = s.itemHeights.set i (max 1 h) := by
    rw [updateItemPositions_itemHeights, updateAccumulatedHeights_itemHeights]
  refine ⟨?_, ?_, ?_⟩
  · rw [hheights]
    exact getD_set_self s.itemHeights i (max 1 h) hi
  · rw [hheights, getD_set_self s.itemHeights i (max 1 h) hi]
    exact jsOr_of_pos hmax _
  · apply updateItemPositions_lookup_preserved
    rw [updateAccumulatedHeights_positionCache]
    show (removeKey i s.positionCache).lookup j = some v
    rw [lookup_removeKey i j hj]
    exact hcache


/-- Counterexample to C3 as stated: the batch measures index 0 at height
150 (`|100 - 150| > 1`); afterwards the height table holds 150 and the
rebuilt cumulative index gives offset 150 for index 1, yet the cached
offset `(1, 100)` — computed from index 0's old height 100 — survives
the batch, contradicting the claim that no such stale entry survives. -/
theorem c3_counterexample :
    (measureItemHeights P0 s3c [(0, 150)]).itemHeights.getD 0 0 = 150 ∧
    (measureItemHeights P0 s3c [(0, 150)]).positionCache.lookup 1 = some 100 ∧
    (measureItemHeights P0 s3c [(0, 150)]).accumulatedHeights.getD 0 0 = 150 ∧
    ((100 : ℚ) ≠ 150) := by
  have hd : s3c.itemHeights.getD 0 0 = 0 ∨
      (1 : ℚ) < |s3c.itemHeights.getD 0 0 - max 1 150| := by
    right
    norm_num [s3c]
  rw [measureItemHeights_single P0 s3c 0 150 (by decide) (by decide) (by norm_num) hd]
  refine ⟨?_, ?_, ?_, by norm_num⟩
  · rw [updateItemPositions_itemHeights, updateAccumulatedHeights_itemHeights]
    norm_num [s3c, List.set]
  · apply updateItemPositions_lookup_preserved
    rw [updateAccumulatedHeights_positionCache]
    decide
  · rw [updateItemPositions_accumulatedHeights, updateAccumulatedHeights_accumulatedHeights]
    norm_num [s3c, List.set, accumFrom, jsOr]

/-- Witness for `c3_batch_invalidation` at the concrete state `s3c`. -/
theorem c3_batch_invalidation_witness :
    ((1 : ℚ) < |s3c.itemHeights.getD 0 0 - max 1 150|) ∧
    s3c.positionCache.lookup 1 = some 100 ∧
    (measureItemHeights P0 s3c [(0, 150)]).itemHeights.getD 0 0 = max 1 150 ∧
    (measureItemHeights P0 s3c [(0, 150)]).positionCache.lookup 1 = some 100 := by
  have hdelta : (1 : ℚ) < |s3c.itemHeights.getD 0 0 - max 1 150| := by
    norm_num [s3c]
  have hc := c3_batch_invalidation P0 s3c 0 150 1 100 (by decide) (by decide)
    (by norm_num) (by decide) hdelta (by decide) (by decide)
  exact ⟨hdelta, by decide, hc.1, hc.2.2⟩


/-! ## Initial-sample measurement (`measureInitialSample`, C2) -/

theorem initRectStep_skip (acc : VLState × ℕ × ℚ) (r : ℕ × ℚ) (h0 : r.2 = 0) :
    initRectStep acc r = acc := by
  simp [initRectStep, h0]

theorem initRectStep_fst_averageHeight (acc : VLState × ℕ × ℚ) (r : ℕ × ℚ) :
    (initRectStep acc r).1.averageHeight = acc.1.averageHeight := by
  by_cases h0 : r.2 = 0 <;> simp [initRectStep, h0]

theorem initRectStep_fst_length (acc : VLState × ℕ × ℚ) (r : ℕ × ℚ) :
    (initRectStep acc r).1.itemHeights.length = acc.1.itemHeights.length := by
  by_cases h0 : r.2 = 0 <;> simp [initRectStep, h0]

theorem initRectStep_count (acc : VLState × ℕ × ℚ) (r : ℕ × ℚ) :
    (initRectStep acc r).2.1 = acc.2.1 + if r.2 = 0 then 0 else 1 := by
  by_cases h0 : r.2 = 0 <;> simp [initRectStep, h0]

theorem initRectStep_sum (acc : VLState × ℕ × ℚ) (r : ℕ × ℚ) :
    (initRectStep acc r).2.2 = acc.2.2 + if r.2 = 0 then 0 else max 1 r.2 := by
  by_cases h0 : r.2 = 0 <;> simp [initRectStep, h0]

theorem initRectStep_getD (acc : VLState × ℕ × ℚ) (r : ℕ × ℚ) (i : ℕ)
    (hri : r.2 ≠ 0 → r.1 ≠ i) :
    (initRectStep acc r).1.itemHeights.getD i 0 = acc.1.itemHeights.getD i 0 := by
  by_cases h0 : r.2 = 0
  · simp [initRectStep, h0]
  · simp only [initRectStep, h0, if_neg (fun hc => absurd hc h0)]
    exact getD_set_ne _ _ _ _ (hri h0)

theorem initRect_fold_averageHeight :
    ∀ (rects : List (ℕ × ℚ)) (acc : VLState × ℕ × ℚ),
    ((rects.foldl initRectStep acc).1).averageHeight = acc.1.averageHeight
  | [], _ => rfl
  | r :: rest, acc => by
    rw [List.foldl_cons, initRect_fold_averageHeight rest (initRectStep acc r),
      initRectStep_fst_averageHeight]

theorem initRect_fold_length :
    ∀ (rects : List (ℕ × ℚ)) (acc : VLState × ℕ × ℚ),
    ((rects.foldl initRectStep acc).1).itemHeights.length = acc.1.itemHeights.length
  | [], _ => rfl
  | r :: rest, acc => by
    rw [List.foldl_cons, initRect_fold_length rest (initRectStep acc r),
      initRectStep_fst_length]

theorem initRect_fold_count :
    ∀ (rects : List (ℕ × ℚ)) (acc : VLState × ℕ × ℚ),
    (rects.foldl initRectStep acc).2.1 =
      acc.2.1 + (rects.filter (fun r => r.2 != 0)).length
  | [], _ => by simp
  | r :: rest, acc => by
    rw [List.foldl_cons, initRect_fold_count rest (initRectStep acc r),
      initRectStep_count, List.filter_cons]
    by_cases h0 : r.2 = 0 <;> (simp [h0]; try omega)

theorem initRect_fold_sum :
    ∀ (rects : List (ℕ × ℚ)) (acc : VLState × ℕ × ℚ),
    (rects.foldl initRectStep acc).2.2 =
      acc.2.2 + ((rects.filter (fun r => r.2 != 0)).map (fun r => max 1 r.2)).sum
  | [], _ => by simp
  | r :: rest, acc => by
    rw [List.foldl_cons, initRect_fold_sum rest (initRectStep acc r),
      initRectStep_sum, List.filter_cons]
    by_cases h0 : r.2 = 0 <;> (simp [h0]; try ring)

theorem initRect_fold_getD_untouched :
    ∀ (rects : List (ℕ × ℚ)) (acc : VLState × ℕ × ℚ) (i : ℕ),
    (∀ r ∈ rects, r.2 ≠ 0 → r.1 ≠ i) →
    ((rects.foldl initRectStep acc).1).itemHeights.getD i 0 =
      acc.1.itemHeights.getD i 0
  | [], _, i, _ => rfl
  | r :: rest, acc, i, hr => by
    rw [List.foldl_cons,
      initRect_fold_getD_untouched rest (initRectStep acc r) i
        (fun x hx => hr x (List.mem_cons_of_mem _ hx)),
      initRectStep_getD acc r i (hr r (List.mem_cons_self _ _))]

theorem rewriteStep_measuredIndices (newAvg : ℚ) (st : VLState) (i : ℕ) :
    (rewriteStep newAvg st i).measuredIndices = st.measuredIndices := by
  by_cases hm : i ∈ st.measuredIndices <;> simp [rewriteStep, hm]

theorem rewriteStep_averageHeight (newAvg : ℚ) (st : VLState) (i : ℕ) :
    (rewriteStep newAvg st i).averageHeight = st.averageHeight := by
  by_cases hm : i ∈ st.measuredIndices <;> simp [rewriteStep, hm]

theorem rewriteStep_length (newAvg : ℚ) (st : VLState) (i : ℕ) :
    (rewriteStep newAvg st i).itemHeights.length = st.itemHeights.length := by
  by_cases hm : i ∈ st.measuredIndices <;> simp [rewriteStep, hm]

theorem rewriteStep_getD (newAvg : ℚ) (st : VLState) (i j : ℕ)
    (hj : j < st.itemHeights.length) :
    (rewriteStep newAvg st i).itemHeights.getD j 0 =
      if j = i ∧ j ∉ st.measuredIndices then newAvg
      else st.itemHeights.getD j 0 := by
  by_cases hm : i ∈ st.measuredIndices
  · rw [if_neg (fun hc => hc.2 (hc.1 ▸ hm))]
    simp [rewriteStep, hm]
  · have hstep : (rewriteStep newAvg st i).itemHeights = st.itemHeights.set i newAvg := by
      simp [rewriteStep, hm]
    rw [hstep]
    by_cases hji : j = i
    · subst hji
      rw [if_pos ⟨rfl, hm⟩]
      exact getD_set_self _ _ _ hj
    · rw [if_neg (fun hc => hji hc.1)]
      exact getD_set_ne _ _ _ _ (fun hc => hji hc.symm)

theorem rewrite_fold_measuredIndices (newAvg : ℚ) : ∀ (l : List ℕ) (st : VLState),
    ((l.foldl (rewriteStep newAvg) st)).measuredIndices = st.measuredIndices
  | [], _ => rfl
  | i :: l, st => by
    rw [List.foldl_cons, rewrite_fold_measuredIndices newAvg l (rewriteStep newAvg st i),
      rewriteStep_measuredIndices]

theorem rewrite_fold_averageHeight (newAvg : ℚ) : ∀ (l : List ℕ) (st : VLState),
    ((l.foldl (rewriteStep newAvg) st)).averageHeight = st.averageHeight
  | [], _ => rfl
  | i :: l, st => by
    rw [List.foldl_cons, rewrite_fold_averageHeight newAvg l (rewriteStep newAvg st i),
      rewriteStep_averageHeight]

theorem rewrite_fold_length (newAvg : ℚ) : ∀ (l : List ℕ) (st : VLState),
    ((l.foldl (rewriteStep newAvg) st)).itemHeights.length = st.itemHeights.length
  | [], _ => rfl
  | i :: l, st => by
    rw [List.foldl_cons, rewrite_fold_length newAvg l (rewriteStep newAvg st i),
      rewriteStep_length]

theorem rewrite_fold_getD (newAvg : ℚ) : ∀ (l : List ℕ) (st : VLState) (j : ℕ),
    j < st.itemHeights.length →
    ((l.foldl (rewriteStep newAvg) st).itemHeights).getD j 0 =
      if j ∈ l ∧ j ∉ st.measuredIndices then newAvg
      else st.itemHeights.getD j 0
  | [], st, j, _ => by simp
  | i :: l, st, j, hj => by
    have hj' : j < (rewriteStep newAvg st i).itemHeights.length := by
      rw [rewriteStep_length]
      exact hj
    rw [List.foldl_cons, rewrite_fold_getD newAvg l (rewriteStep newAvg st i) j hj',
      rewriteStep_measuredIndices, rewriteStep_getD newAvg st i j hj]
    have hcons : j ∈ i :: l ↔ j = i ∨ j ∈ l := List.mem_cons
    split_ifs <;> tauto

/-- **C2 (amended).** After an initial-sample batch with at least one
valid measurement, `averageHeight` is replaced by the batch's arithmetic
mean; the rewrite of unmeasured heights is gated *globally* by comparing
the new average against the configured nominal height: when
`|newAvg - nominal| > nominal/10`, EVERY unmeasured in-range index is
rewritten to the new average, and otherwise every index not measured by
the batch keeps its prior height — the per-index heights are never
compared against the new average. -/
theorem c2_initial_sample (P : Params) (s : VLState) (rects : List (ℕ × ℚ))
    (hdyn : P.dynamicHeight = true) (hwin : s.virtualList.length ≠ 0)
    (hvalid : (rects.filter (fun r => r.2 != 0)).length ≠ 0) :
    (measureInitialSample P s rects).averageHeight = batchMean rects ∧
    (P.itemHeight * (1 / 10) < |batchMean rects - P.itemHeight| →
      ∀ i, i < s.itemHeights.length →
        i ∉ (measureInitialSample P s rects).measuredIndices →
        (measureInitialSample P s rects).itemHeights.getD i 0 = batchMean rects) ∧
    (¬ P.itemHeight * (1 / 10) < |batchMean rects - P.itemHeight| →
      ∀ i, (∀ r ∈ rects, r.2 ≠ 0 → r.1 ≠ i) →
        (measureInitialSample P s rects).itemHeights.getD i 0 =
          s.itemHeights.getD i 0) := by
  have hguard1 : ¬ (¬ P.dynamicHeight ∨ s.virtualList.length = 0) := by
    simp [hdyn, hwin]
  have hrlen : ¬ rects.length = 0 := by
    have hle := List.length_filter_le (fun r => r.2 != 0) rects
    omega
  simp only [measureInitialSample]
  rw [if_neg hguard1, if_neg hrlen]
  set F := rects.foldl initRectStep (s, 0, 0) with hF
  have hcnt : F.2.1 = (rects.filter (fun r => r.2 != 0)).length := by
    rw [hF, initRect_fold_count]
    simp
  have hsum : F.2.2 =
      ((rects.filter (fun r => r.2 != 0)).map (fun r => max 1 r.2)).sum := by
    rw [hF, initRect_fold_sum]
    simp
  have hpos : 0 < F.2.1 := by
    rw [hcnt]
    omega
  have hmean : F.2.2 / (F.2.1 : ℚ) = batchMean rects := by
    rw [hcnt, hsum, batchMean]
  have hflen : F.1.itemHeights.length = s.itemHeights.length := by
    rw [hF, initRect_fold_length]
  rw [if_pos hpos, hmean]
  set S2 := ({ F.1 with averageHeight := batchMean rects } : VLState) with hS2
  by_cases hgate : P.itemHeight * (1 / 10) < |batchMean rects - P.itemHeight|
  · rw [if_pos hgate]
    refine ⟨?_, fun _ i hi hm => ?_, fun hng => absurd hgate hng⟩
    · rw [updateItemPositions_averageHeight, updateAccumulatedHeights_averageHeight,
        rewrite_fold_averageHeight, hS2]
    · rw [updateItemPositions_measuredIndices, updateAccumulatedHeights_measuredIndices,
        rewrite_fold_measuredIndices] at hm
      rw [updateItemPositions_itemHeights, updateAccumulatedHeights_itemHeights]
      have hhj : i < S2.itemHeights.length := by
        rw [hS2]
        rw [show ({ F.1 with averageHeight := batchMean rects } : VLState).itemHeights
            = F.1.itemHeights from rfl, hflen]
        exact hi
      rw [rewrite_fold_getD (batchMean rects) (List.range F.1.itemHeights.length) S2 i hhj]
      rw [if_pos ⟨List.mem_range.mpr (by rw [hflen]; exact hi), hm⟩]
  · rw [if_neg hgate]
    refine ⟨?_, fun hg => absurd hg hgate, fun _ i hunt => ?_⟩
    · rw [updateItemPositions_averageHeight, updateAccumulatedHeights_averageHeight, hS2]
    · rw [updateItemPositions_itemHeights, updateAccumulatedHeights_itemHeights, hS2]
      show F.1.itemHeights.getD i 0 = s.itemHeights.getD i 0
      rw [hF, initRect_fold_getD_untouched rects (s, 0, 0) i hunt]

/-- Counterexample to C2 as stated: the batch measures only index 1 at
height 105, so the new average is 105; index 0 is unmeasured and its
current height 200 deviates from 105 by far more than 10%, yet it is
*not* rewritten — the code's gate compares the new average with the
nominal height (`|105 - 100| ≤ 10`) and therefore rewrites nothing. -/
theorem c2_counterexample :
    (measureInitialSample P0 s2c [(1, 105)]).averageHeight = 105 ∧
    (measureInitialSample P0 s2c [(1, 105)]).itemHeights.getD 0 0 = 200 ∧
    0 ∉ (measureInitialSample P0 s2c [(1, 105)]).measuredIndices ∧
    ¬ |(200 : ℚ) - 105| ≤ 105 * (1 / 10) := by
  have hfold : ([((1 : ℕ), (105 : ℚ))]).foldl initRectStep (s2c, 0, 0) =
      (⟨2, [⟨0, 0, 0, 200⟩, ⟨1, 1, 200, 105⟩], [200, 105], 100, [1], 0, [],
        [200, 300], 300⟩, 1, 105) := by
    norm_num +decide [initRectStep, insertSet, removeKey, s2c, List.set]
  simp only [measureInitialSample]
  rw [if_neg (by decide), if_neg (by decide), hfold]
  rw [if_pos (by norm_num : 0 < (((⟨2, [⟨0, 0, 0, 200⟩, ⟨1, 1, 200, 105⟩],
    [200, 105], 100, [1], 0, [], [200, 300], 300⟩ : VLState), 1, (105 : ℚ)) :
    VLState × ℕ × ℚ).2.1)]
  rw [show ((((⟨2, [⟨0, 0, 0, 200⟩, ⟨1, 1, 200, 105⟩], [200, 105], 100, [1], 0, [],
      [200, 300], 300⟩ : VLState), 1, (105 : ℚ)) : VLState × ℕ × ℚ).2.2 /
      ((((⟨2, [⟨0, 0, 0, 200⟩, ⟨1, 1, 200, 105⟩], [200, 105], 100, [1], 0, [],
      [200, 300], 300⟩ : VLState), 1, (105 : ℚ)) : VLState × ℕ × ℚ).2.1 : ℚ)) =
      (105 : ℚ) from by norm_num]
  rw [if_neg (by norm_num [P0] :
    ¬ P0.itemHeight * (1 / 10) < |(105 : ℚ) - P0.itemHeight|)]
  refine ⟨?_, ?_, ?_, by norm_num⟩
  · rw [updateItemPositions_averageHeight, updateAccumulatedHeights_averageHeight]
  · rw [updateItemPositions_itemHeights, updateAccumulatedHeights_itemHeights]
    norm_num
  · rw [updateItemPositions_measuredIndices, updateAccumulatedHeights_measuredIndices]
    decide

/-- Witness for `c2_initial_sample` at the concrete state `s2c`. -/
theorem c2_initial_sample_witness :
    ([((1 : ℕ), (105 : ℚ))].filter (fun r => r.2 != 0)).length ≠ 0 ∧
    (measureInitialSample P0 s2c [(1, 105)]).averageHeight = batchMean [(1, 105)] :=
  ⟨by decide,
    (c2_initial_sample P0 s2c [(1, 105)] (by decide) (by decide) (by decide)).1⟩

/-! ## Equivalence of the two positioning strategies (C10) -/

theorem lookup_none_of_ne (k : ℕ) : ∀ (cache : List (ℕ × ℚ)),
    (∀ p ∈ cache, p.1 ≠ k) → cache.lookup k = none
  | [], _ => rfl
  | (a, v) :: rest, h => by
    have hak : ¬ k = a := fun hc => h (a, v) (List.mem_cons_self _ _) hc.symm
    have hb : (k == a) = false := beq_eq_false_iff_ne.mpr hak
    simp only [List.lookup, hb]
    exact lookup_none_of_ne k rest (fun p hp => h p (List.mem_cons_of_mem _ hp))

theorem mem_range'_iff (m s n : ℕ) : m ∈ List.range' s n ↔ s ≤ m ∧ m < s + n := by
  rw [List.mem_range']
  constructor
  · rintro ⟨i, hi, rfl⟩
    omega
  · rintro ⟨h1, h2⟩
    exact ⟨m - s, by omega, by omega⟩

theorem range'_concat_one (s n : ℕ) :
    List.range' s (n + 1) = List.range' s n ++ [s + n] := by
  have h : List.range' s (n + 1) = List.range' s n ++ [s + 1 * n] :=
    List.range'_concat s n
  simpa using h

theorem map_index_cons {it : VItem} {rest : List VItem} {a n : ℕ}
    (h : (it :: rest).map (fun u => u.index) = List.range' a (n + 1)) :
    it.index = a ∧ rest.map (fun u => u.index) = List.range' (a + 1) n := by
  rw [List.map_cons, List.range'_succ] at h
  exact ⟨List.head_eq_of_cons_eq h, List.tail_eq_of_cons_eq h⟩

theorem accumFrom_getD_zero (avg : ℚ) (hs : List ℚ) (c : ℚ) (h : 0 < hs.length) :
    (accumFrom avg c hs).getD 0 0 = c + jsOr (hs.getD 0 0) avg := by
  cases hs with
  | nil => simp at h
  | cons x t => simp [accumFrom]

theorem accumFrom_getD_succ (avg : ℚ) : ∀ (hs : List ℚ) (c : ℚ) (j : ℕ),
    j + 1 < hs.length →
    (accumFrom avg c hs).getD (j + 1) 0 =
      (accumFrom avg c hs).getD j 0 + jsOr (hs.getD (j + 1) 0) avg
  | [], _, j, hj => by simp at hj
  | x :: t, c, 0, hj => by
    cases t with
    | nil => simp at hj
    | cons y t2 => simp [accumFrom]
  | x :: t, c, j + 1, hj => by
    have ht : j + 1 < t.length := by simpa using hj
    simp only [accumFrom, List.getD_cons_succ]
    exact accumFrom_getD_succ avg t (c + jsOr x avg) j ht

theorem absGo_spec (acc : List ℚ) : ∀ (items : List VItem) (cache : List (ℕ × ℚ))
    (a k : ℕ), items.map (fun it => it.index) = List.range' a k →
    (∀ p ∈ cache, p.1 < a) →
    (absGo acc cache items).1 = items.map (specUpd acc)
  | [], cache, a, k, _, _ => rfl
  | it :: rest, cache, a, k, hw, hkeys => by
    cases k with
    | zero => simp at hw
    | succ n =>
      obtain ⟨hit, hrest⟩ := map_index_cons hw
      by_cases h0 : it.index = 0
      · have hrec := absGo_spec acc rest cache (a + 1) n hrest
          (fun p hp => lt_trans (hkeys p hp) (by omega))
        simp [absGo, h0, specUpd, hrec]
      · have hlk : cache.lookup it.index = none :=
          lookup_none_of_ne it.index cache
            (fun p hp => by have hlt := hkeys p hp; omega)
        have hrec := absGo_spec acc rest ((it.index, acc.getD (it.index - 1) 0) :: cache)
          (a + 1) n hrest
          (fun p hp => by
            rcases List.mem_cons.mp hp with hc | hc
            · rw [hc]
              omega
            · exact lt_trans (hkeys p hc) (by omega))
        simp only [List.getD_eq_getElem?_getD] at hrec
        simp [absGo, h0, hlk, specUpd, hrec]

theorem insertByIndex_le_head (x y : VItem) (ys : List VItem)
    (h : x.index ≤ y.index) : insertByIndex x (y :: ys) = x :: y :: ys := by
  rw [insertByIndex, if_pos h]

theorem sortByIndex_sorted_eq : ∀ (w : List VItem),
    List.Pairwise (fun u v : VItem => u.index ≤ v.index) w → sortByIndex w = w
  | [], _ => rfl
  | x :: xs, h => by
    rw [sortByIndex, sortByIndex_sorted_eq xs (List.pairwise_cons.mp h).2]
    cases xs with
    | nil => rfl
    | cons y ys =>
      exact insertByIndex_le_head x y ys
        ((List.pairwise_cons.mp h).1 y (List.mem_cons_self _ _))

theorem find?_append_some (p : VItem → Bool) : ∀ (l1 l2 : List VItem) (u : VItem),
    l1.find? p = some u → (l1 ++ l2).find? p = some u
  | [], _, u, h => by simp [List.find?] at h
  | x :: l1, l2, u, h => by
    by_cases hp : p x
    · rw [List.find?_cons_of_pos _ hp] at h
      rw [List.cons_append, List.find?_cons_of_pos _ hp]
      exact h
    · rw [List.find?_cons_of_neg _ hp] at h
      rw [List.cons_append, List.find?_cons_of_neg _ hp]
      exact find?_append_some p l1 l2 u h

theorem find_by_index (t : ℕ) : ∀ (l : List VItem) (a m : ℕ),
    l.map (fun u => u.index) = List.range' a m → a ≤ t → t < a + m →
    ∃ u, l.find? (fun j => j.index == t) = some u ∧ u.index = t ∧ u ∈ l
  | [], a, m, hmap, h1, h2 => by
    cases m with
    | zero => omega
    | succ n => simp [List.range'_succ] at hmap
  | x :: l, a, m, hmap, h1, h2 => by
    cases m with
    | zero => omega
    | succ n =>
      obtain ⟨hx, hl⟩ := map_index_cons hmap
      by_cases ht : t = a
      · subst ht
        refine ⟨x, ?_, hx, List.mem_cons_self _ _⟩
        simp [List.find?, hx]
      · have hb : (x.index == t) = false := by
          rw [hx]
          exact beq_eq_false_iff_ne.mpr (fun hc => ht hc.symm)
        obtain ⟨u, hu1, hu2, hu3⟩ := find_by_index t l (a + 1) n hl (by omega) (by omega)
        refine ⟨u, ?_, hu2, List.mem_cons_of_mem _ hu3⟩
        simp [List.find?, hb, hu1]

theorem cumulGo_spec (hts : List ℚ) (avg : ℚ) (acc : List ℚ)
    (hacc : acc = accumFrom avg 0 hts) :
    ∀ (rest done : List VItem) (cache : List (ℕ × ℚ)) (a m : ℕ),
    done.map (fun it => it.index) = List.range' a m →
    rest.map (fun it => it.index) = List.range' (a + m) rest.length →
    a + m + rest.length ≤ hts.length →
    (∀ u ∈ done, u.translateY = if u.index = 0 then 0 else acc.getD (u.index - 1) 0) →
    (∀ p ∈ cache, p.1 < a + m) →
    (cumulGo hts avg acc cache done rest).1 = done ++ rest.map (specUpd acc)
  | [], done, cache, a, m, hdone, _, _, _, _ => by simp [cumulGo]
  | it :: rest, done, cache, a, m, hdone, hrest, hbound, htys, hkeys => by
    have hrest2 : (it :: rest).map (fun u : VItem => u.index) =
        List.range' (a + m) (rest.length + 1) := by
      simpa using hrest
    obtain ⟨hit, hrest'⟩ := map_index_cons hrest2
    have hdone' : (done ++ [{ it with translateY :=
        if it.index = 0 then 0 else acc.getD (it.index - 1) 0 }]).map
          (fun u : VItem => u.index) = List.range' a (m + 1) := by
      rw [List.map_append, hdone, range'_concat_one]
      simp [hit]
    have hrest'' : rest.map (fun u : VItem => u.index) =
        List.range' (a + (m + 1)) rest.length := by
      rw [hrest', Nat.add_assoc]
    have hbound' : a + (m + 1) + rest.length ≤ hts.length := by
      simp only [List.length_cons] at hbound
      omega
    have htys' : ∀ u ∈ done ++ [{ it with translateY :=
        if it.index = 0 then 0 else acc.getD (it.index - 1) 0 }],
        u.translateY = if u.index = 0 then 0 else acc.getD (u.index - 1) 0 := by
      intro u hu
      rcases List.mem_append.mp hu with hc | hc
      · exact htys u hc
      · rcases List.mem_singleton.mp hc with rfl
        rfl
    by_cases h0 : it.index = 0
    · have hstep : cumulGo hts avg acc cache done (it :: rest) =
          cumulGo hts avg acc cache (done ++ [{ it with translateY := 0 }]) rest := by
        simp only [cumulGo]
        rw [if_pos h0]
      rw [hstep]
      have hrec := cumulGo_spec hts avg acc hacc rest
        (done ++ [{ it with translateY :=
          if it.index = 0 then 0 else acc.getD (it.index - 1) 0 }]) cache a (m + 1)
        hdone' hrest'' hbound' htys'
        (fun p hp => by have hk := hkeys p hp; omega)
      rw [if_pos h0] at hrec
      rw [hrec]
      have hspec : specUpd acc it = { it with translateY := 0 } := by
        simp [specUpd, h0]
      simp [hspec]
    · have hlk0 : cache.lookup it.index = none :=
        lookup_none_of_ne it.index cache
          (fun p hp => by have hk := hkeys p hp; omega)
      have hlen0 : 0 < hts.length := by
        simp only [List.length_cons] at hbound
        omega
      by_cases hm0 : m = 0
      · -- no materialized predecessor: the fallback reads the cumulative array
        subst hm0
        have hdone0 : done = [] := by
          have hmap := hdone
          rw [List.range'_zero] at hmap
          exact List.map_eq_nil_iff.mp hmap
        have hfind : (done ++ it :: rest).find?
            (fun j => j.index == it.index - 1) = none := by
          rw [hdone0, List.nil_append, List.find?_eq_none]
          intro x hx
          have hxmem : x.index ∈ List.range' (a + 0) (rest.length + 1) := by
            rw [← hrest2]
            exact List.mem_map_of_mem _ hx
          rw [mem_range'_iff] at hxmem
          simp only [beq_iff_eq]
          omega
        have hstep : cumulGo hts avg acc cache done (it :: rest) =
            cumulGo hts avg acc ((it.index, acc.getD (it.index - 1) 0) :: cache)
              (done ++ [{ it with translateY := acc.getD (it.index - 1) 0 }]) rest := by
          simp only [cumulGo]
          rw [if_neg h0]
          simp only [hlk0, hfind]
        rw [hstep]
        have hrec := cumulGo_spec hts avg acc hacc rest
          (done ++ [{ it with translateY :=
            if it.index = 0 then 0 else acc.getD (it.index - 1) 0 }])
          ((it.index, acc.getD (it.index - 1) 0) :: cache) a (0 + 1)
          hdone' hrest'' hbound' htys'
          (fun p hp => by
            rcases List.mem_cons.mp hp with hc | hc
            · rw [hc]
              omega
            · have hk := hkeys p hc
              omega)
        rw [if_neg h0] at hrec
        rw [hrec]
        have hspec : specUpd acc it =
            { it with translateY := acc.getD (it.index - 1) 0 } := by
          simp [specUpd, h0]
        simp [hspec]
      · -- the materialized predecessor was already stamped with its offset
        obtain ⟨u, hu1, hu2, hu3⟩ := find_by_index (it.index - 1) done a m hdone
          (by omega) (by omega)
        have hufind : (done ++ it :: rest).find?
            (fun j => j.index == it.index - 1) = some u :=
          find?_append_some _ done _ u hu1
        have hty : u.translateY + jsOr (hts.getD (it.index - 1) 0) avg =
            acc.getD (it.index - 1) 0 := by
          rw [htys u hu3, hu2]
          by_cases hz : it.index - 1 = 0
          · rw [if_pos hz, hz, hacc, accumFrom_getD_zero avg hts 0 hlen0, zero_add]
          · obtain ⟨j, hj⟩ : ∃ j, it.index - 1 = j + 1 := ⟨it.index - 2, by omega⟩
            have hjb : j + 1 < hts.length := by
              simp only [List.length_cons] at hbound
              omega
            rw [if_neg hz, hj, hacc, accumFrom_getD_succ avg hts 0 j hjb,
              Nat.add_sub_cancel]
        have hstep : cumulGo hts avg acc cache done (it :: rest) =
            cumulGo hts avg acc ((it.index, acc.getD (it.index - 1) 0) :: cache)
              (done ++ [{ it with translateY := acc.getD (it.index - 1) 0 }]) rest := by
          simp only [cumulGo]
          rw [if_neg h0]
          simp only [hlk0, hufind, hty]
        rw [hstep]
        have hrec := cumulGo_spec hts avg acc hacc rest
          (done ++ [{ it with translateY :=
            if it.index = 0 then 0 else acc.getD (it.index - 1) 0 }])
          ((it.index, acc.getD (it.index - 1) 0) :: cache) a (m + 1)
          hdone' hrest'' hbound' htys'
          (fun p hp => by
            rcases List.mem_cons.mp hp with hc | hc
            · rw [hc]
              omega
            · have hk := hkeys p hc
              omega)
        rw [if_neg h0] at hrec
        rw [hrec]
        have hspec : specUpd acc it =
            { it with translateY := acc.getD (it.index - 1) 0 } := by
          simp [specUpd, h0]
        simp [hspec]

theorem find_specUpd (acc : List ℚ) : ∀ (w : List VItem) (a k : ℕ),
    w.map (fun u => u.index) = List.range' a k →
    ∀ it ∈ w, (w.map (specUpd acc)).find? (fun u => u.index == it.index) =
      some (specUpd acc it)
  | [], _, _, _, it, hit => absurd hit (List.not_mem_nil _)
  | x :: xs, a, k, hw, it, hit => by
    cases k with
    | zero => simp [List.range'_zero] at hw
    | succ n =>
      obtain ⟨hx, hxs⟩ := map_index_cons hw
      rcases List.mem_cons.mp hit with rfl | hmem
      · have hb : ((specUpd acc it).index == it.index) = true := by
          simp [specUpd]
        simp [List.find?, hb]
      · have hxi : it.index ∈ List.range' (a + 1) n := by
          rw [← hxs]
          exact List.mem_map_of_mem _ hmem
        rw [mem_range'_iff] at hxi
        have hne : ((specUpd acc x).index == it.index) = false := by
          rw [show (specUpd acc x).index = x.index from rfl, beq_eq_false_iff_ne, hx]
          omega
        simp [List.find?, hne, find_specUpd acc xs (a + 1) n hxs it hmem]

/-- **C10.** On any materialized window that is a contiguous in-bounds
index range, if the position cache is empty and the cumulative index
was rebuilt from the current height table (all of whose entries are
`≥ 1`), then the absolute and the cumulative positioning strategies
produce identical windows — in particular identical `translateY`
offsets for every item. -/
theorem c10_strategies_agree (s : VLState) (a k : ℕ)
    (hw : s.virtualList.map (fun it => it.index) = List.range' a k)
    (hcache : s.positionCache = [])
    (hacc : s.accumulatedHeights = accumFrom s.averageHeight 0 s.itemHeights)
    (hbound : a + k ≤ s.itemHeights.length)
    (_hpos : ∀ h ∈ s.itemHeights, 1 ≤ h) :
    (updateItemPositionsAbsolute s).virtualList =
      (updateItemPositionsCumulative s).virtualList := by
  have hlenw : s.virtualList.length = k := by
    have hl := congrArg List.length hw
    simpa using hl
  have habs : (updateItemPositionsAbsolute s).virtualList =
      s.virtualList.map (specUpd s.accumulatedHeights) := by
    show (absGo s.accumulatedHeights s.positionCache s.virtualList).1 = _
    rw [hcache]
    exact absGo_spec s.accumulatedHeights s.virtualList [] a k hw (by simp)
  have hsorted : List.Pairwise (fun u v : VItem => u.index ≤ v.index) s.virtualList := by
    have hp : List.Pairwise (· < ·) (s.virtualList.map (fun it => it.index)) := by
      rw [hw]
      exact List.pairwise_lt_range' a k
    exact (List.pairwise_map.mp hp).imp (fun hlt => le_of_lt hlt)
  have hsort : sortByIndex s.virtualList = s.virtualList :=
    sortByIndex_sorted_eq _ hsorted
  have hcg : (cumulGo s.itemHeights s.averageHeight s.accumulatedHeights
      s.positionCache [] (sortByIndex s.virtualList)).1 =
      s.virtualList.map (specUpd s.accumulatedHeights) := by
    rw [hsort, hcache]
    have hc := cumulGo_spec s.itemHeights s.averageHeight s.accumulatedHeights hacc
      s.virtualList [] [] a 0 (by simp)
      (by simpa [hlenw] using hw)
      (by rw [hlenw]; omega)
      (by simp) (by simp)
    simpa using hc
  rw [habs]
  simp only [updateItemPositionsCumulative]
  rw [hcg]
  refine (List.map_congr_left fun it hit => ?_).symm
  rw [find_specUpd s.accumulatedHeights s.virtualList a k hw it hit]

/-- Witness for `c10_strategies_agree` at the concrete state `sw10`. -/
theorem c10_strategies_agree_witness :
    (sw10.virtualList.map (fun it => it.index) = List.range' 1 2) ∧
    (updateItemPositionsAbsolute sw10).virtualList =
      (updateItemPositionsCumulative sw10).virtualList :=
  ⟨by decide,
    c10_strategies_agree sw10 1 2 (by decide) rfl rfl (by decide) (by decide)⟩
